import Mathlib

/-! bcd-clock : a BCD wall clock on a MAX7219, bit-banged over three GPIO lines

Shallow embedding of `bcd-clock.c`.

* C `int` values are `Int` (no overflow occurs on the ranges considered);
  `uint8_t` values are `Nat`, and every implicit conversion `int → uint8_t`
  of the source is written out as `toU8`.
* Every call that acts on the outside world appends an `Event` to a trace;
  a function of the source that returns `void` is the list of events it emits.
* The host clock is a list of successive `localtime` results; the bcm2835
  initialisation result and the parsed command-line argument are inputs.
-/

namespace BcdClock

/-! ## Data model -/

/-- The three output lines (`kPin_Max7219_DataIn`, `kPin_Max7219_CS`, `kPin_Max7219_Clock`). -/
inductive Pin
  | DataIn
  | CS
  | Clock
  deriving DecidableEq, Repr

/-- Logic level `HIGH` of bcm2835. -/
def HIGH : Bool := true

/-- Logic level `LOW` of bcm2835. -/
def LOW : Bool := false

/-- Externally visible calls made by the program, in program order. -/
inductive Event
  | gpio_fsel (pin : Pin)
  | gpio_write (pin : Pin) (level : Bool)
  | delay (ms : Nat)
  | time_read
  | gettimeofday
  | printf (msg : String)
  deriving DecidableEq, Repr

/-- The fields of `struct tm` that the program reads. -/
structure Tm where
  tm_sec : Int
  tm_min : Int
  tm_hour : Int
  deriving DecidableEq, Repr

/-- Implicit conversion of a C `int` to `uint8_t` (reduction modulo 256). -/
def toU8 (x : Int) : Nat := (x % 256).toNat

def max7219_reg_noop : Nat := 0x00
def max7219_reg_digit0 : Nat := 0x01
def max7219_reg_digit1 : Nat := 0x02
def max7219_reg_digit2 : Nat := 0x03
def max7219_reg_digit3 : Nat := 0x04
def max7219_reg_digit4 : Nat := 0x05
def max7219_reg_digit5 : Nat := 0x06
def max7219_reg_digit6 : Nat := 0x07
def max7219_reg_digit7 : Nat := 0x08
def max7219_reg_decodeMode : Nat := 0x09
def max7219_reg_intensity : Nat := 0x0a
def max7219_reg_scanLimit : Nat := 0x0b
def max7219_reg_shutdown : Nat := 0x0c
def max7219_reg_displayTest : Nat := 0x0f

/-! ## The display driver -/

/-- The loop of `SendByte`: `for (uint8_t i = 8; i > 0; --i)`, started at counter `i`. -/
def SendByte.loop (data : Nat) : Nat → List Event
  | 0 => []
  | i + 1 =>
    [ Event.gpio_write Pin.Clock LOW,
      Event.gpio_write Pin.DataIn (if data &&& (1 <<< (i + 1 - 1)) ≠ 0 then HIGH else LOW),
      Event.gpio_write Pin.Clock HIGH ] ++ SendByte.loop data i

/-- Embedding of `void SendByte(uint8_t data)`. -/
def SendByte (data : Nat) : List Event := SendByte.loop data 8

/-- Embedding of `void Write(uint8_t reg, uint8_t col)`. -/
def Write (reg col : Nat) : List Event :=
  [Event.gpio_write Pin.CS LOW] ++ SendByte reg ++ SendByte col ++ [Event.gpio_write Pin.CS HIGH]

/-- Embedding of `void SetDigit(uint8_t digit, uint8_t val)`: the `int` sum `digit + 1`
is converted to `uint8_t` at the call of `Write`. -/
def SetDigit (digit val : Nat) : List Event := Write (toU8 ((digit : Int) + 1)) val

/-- Embedding of `uint8_t int_to_bcd(int in)`: C division and remainder truncate
towards zero, and the `int` result is converted to `uint8_t` on return. -/
def int_to_bcd (v : Int) : Nat :=
  toU8 (Int.lor ((Int.tdiv v 10) <<< (4 : Int)) (Int.tmod v 10))

/-- Embedding of `void SetupBasics(int iBrightness)`. -/
def SetupBasics (iBrightness : Int) : List Event :=
  Write max7219_reg_scanLimit 0x05 ++
  Write max7219_reg_decodeMode 0x00 ++
  Write max7219_reg_shutdown 0x01 ++
  Write max7219_reg_displayTest 0x00 ++
  Write max7219_reg_intensity (toU8 iBrightness)

/-! ## `main` -/

/-- The value of `iBrightness` after lines 58-65 of `main`; `atoi_argv1` is the
result of `atoi(argv[1])`, consulted only when `argc > 1`. -/
def iBrightness (argc : Int) (atoi_argv1 : Int) : Int :=
  if argc > 1 then
    let b := atoi_argv1
    let b := if b < 1 then 1 else b
    let b := if b > 15 then 15 else b
    b
  else 8

/-- The array `int digit[6]` filled in lines 114-124 of `main`, as the list
`[digit[0], ..., digit[5]]`. -/
def digit (tm : Tm) : List Nat :=
  let uSecondsBCD := int_to_bcd tm.tm_sec
  let uHoursBCD := int_to_bcd tm.tm_hour
  let uMinutesBCD := int_to_bcd tm.tm_min
  [ uSecondsBCD &&& 0x0F,
    (uSecondsBCD &&& 0xF0) >>> 4,
    uMinutesBCD &&& 0x0F,
    (uMinutesBCD &&& 0xF0) >>> 4,
    uHoursBCD &&& 0x0F,
    (uHoursBCD &&& 0xF0) >>> 4 ]

/-- The loop `for (int x = 5; x >= 0; --x) SetDigit(x, digit[x]);` entered with
`n = x + 1`; both `int` arguments are converted to `uint8_t`. -/
def renderLoop (d : List Nat) : Nat → List Event
  | 0 => []
  | x + 1 => SetDigit (toU8 x) (toU8 (d.getD x 0)) ++ renderLoop d x

/-- Lines 126-129 of `main`. -/
def render (d : List Nat) : List Event := renderLoop d 6

/-- The loop `for (int digit = 0; digit < 8; ++digit) SetDigit(digit, 0);` from
the current value of `digit`, for at most `n` iterations. -/
def blankLoop (digit : Nat) : Nat → List Event
  | 0 => []
  | n + 1 => if digit < 8 then SetDigit (toU8 digit) 0 ++ blankLoop (digit + 1) n else []

/-- Lines 104-110 of `main`: poll the clock until the seconds field differs
from `uOldSeconds`.  Returns the events emitted and, when a differing reading
arrives among the given readings, that reading and the readings not yet consumed. -/
def sampler (uOldSeconds : Nat) : List Tm → List Event × Option (Tm × List Tm)
  | [] => ([], none)
  | tm :: rest =>
    if tm.tm_sec ≠ (uOldSeconds : Int) then ([Event.time_read], some (tm, rest))
    else
      let r := sampler uOldSeconds rest
      (Event.time_read :: Event.delay 50 :: r.1, r.2)

/-- One iteration of the outer `while (1)` of `main` (lines 97-129).  Returns the
events emitted and, when the iteration completes, the new `uOldSeconds` and the
clock readings left. -/
def loopBody (b : Int) (uOldSeconds : Nat) (clock : List Tm) :
    List Event × Option (Nat × List Tm) :=
  let s := sampler uOldSeconds clock
  match s.2 with
  | none => (SetupBasics b ++ s.1, none)
  | some (tm, rest) =>
    (SetupBasics b ++ s.1 ++ render (digit tm), some (toU8 tm.tm_sec, rest))

/-- The outer `while (1)` of `main`, run for at most `n` iterations. -/
def mainLoop (b : Int) : Nat → Nat → List Tm → List Event
  | 0, _, _ => []
  | n + 1, uOldSeconds, clock =>
    let r := loopBody b uOldSeconds clock
    match r.2 with
    | none => r.1
    | some (old, rest) => r.1 ++ mainLoop b n old rest

/-- Lines 77-93 of `main`: pin setup, first configuration, blanking of the eight
digit registers, and the `millis()` call. -/
def startup (b : Int) : List Event :=
  [ Event.gpio_fsel Pin.DataIn, Event.gpio_fsel Pin.Clock, Event.gpio_fsel Pin.CS,
    Event.gpio_write Pin.DataIn HIGH, Event.gpio_write Pin.Clock HIGH,
    Event.gpio_write Pin.CS HIGH ] ++
  SetupBasics b ++ blankLoop 0 8 ++ [Event.gettimeofday]

/-- Embedding of `main`.  `init_ok` is the result of `bcm2835_init()`, `clock` the
successive results of `localtime`.  Returns the trace and the exit status; the
status is `none` when the program is still inside its endless loop once the
given clock readings are used up (every iteration consumes at least one). -/
def main (argc : Int) (atoi_argv1 : Int) (init_ok : Bool) (clock : List Tm) :
    List Event × Option Int :=
  let b := iBrightness argc atoi_argv1
  if !init_ok then
    ([Event.gettimeofday, Event.printf "bcm2835_init failed!\n"], some 1)
  else
    (Event.gettimeofday :: startup b ++ mainLoop b (clock.length + 1) 0xFF clock, none)

/-! ## The receiving side of the wire protocol

Not part of `bcd-clock.c`: a receiver as the specification words it ("CS low →
16 bits, MSB first, data sampled on clock rising edge → CS high"), used to read
register-write transactions back from a trace of pin writes. -/

/-- State of the receiver: the last level written to each line, the bits sampled
since chip-select went low, and the bit windows already closed. -/
structure Receiver where
  cs : Bool
  clk : Bool
  din : Bool
  bits : List Bool
  frames : List (List Bool)
  deriving DecidableEq, Repr

/-- The lines as `main` leaves them in lines 81-83: all three HIGH. -/
def Receiver.idle : Receiver := ⟨HIGH, HIGH, HIGH, [], []⟩

/-- One event seen by the receiver: a falling chip-select opens a window, a rising
clock inside a window samples the data line, a rising chip-select closes the window. -/
def Receiver.step (s : Receiver) : Event → Receiver
  | Event.gpio_write Pin.CS l =>
    if s.cs = HIGH ∧ l = LOW then { s with cs := l, bits := [] }
    else if s.cs = LOW ∧ l = HIGH then
      { s with cs := l, bits := [], frames := s.frames ++ [s.bits] }
    else { s with cs := l }
  | Event.gpio_write Pin.Clock l =>
    if s.cs = LOW ∧ s.clk = LOW ∧ l = HIGH then { s with clk := l, bits := s.bits ++ [s.din] }
    else { s with clk := l }
  | Event.gpio_write Pin.DataIn l => { s with din := l }
  | _ => s

/-- The receiver run over a trace from state `s`. -/
def Receiver.run (s : Receiver) (tr : List Event) : Receiver := tr.foldl Receiver.step s

/-- The bit windows (chip-select LOW to chip-select HIGH) sampled from a trace that
starts with all lines idle. -/
def sampledBits (tr : List Event) : List (List Bool) := (Receiver.run Receiver.idle tr).frames

/-- Value of a list of bits read most significant bit first. -/
def bitsToNat (bs : List Bool) : Nat := bs.foldl (fun acc b => 2 * acc + b.toNat) 0

/-- A bit window read as an 8-bit address followed by the data byte. -/
def decodeFrame (bs : List Bool) : Nat × Nat := (bitsToNat (bs.take 8), bitsToNat (bs.drop 8))

/-- The register-write transactions `(address, value)` a receiver reads from a trace. -/
def transactions (tr : List Event) : List (Nat × Nat) := (sampledBits tr).map decodeFrame

/-- The `n` low bits of `data`, most significant first. -/
def msbBits (data : Nat) : Nat → List Bool
  | 0 => []
  | i + 1 => data.testBit i :: msbBits data i

/-- The three pin writes that clock out one bit. -/
def clockBit (b : Bool) : List Event :=
  [Event.gpio_write Pin.Clock LOW, Event.gpio_write Pin.DataIn b, Event.gpio_write Pin.Clock HIGH]

/-- The part of a trace that precedes the first read of the clock by the main loop
(`time(NULL)` in line 106). -/
def beforeFirstClockRead (tr : List Event) : List Event :=
  tr.takeWhile (fun e => decide (e ≠ Event.time_read))

/-- The display seen as a register file: the value held at each register address. -/
abbrev RegFile := Nat → Nat

/-- Effect of one register-write transaction `(address, value)` on the register file. -/
def applyTx (rf : RegFile) (t : Nat × Nat) : RegFile :=
  fun a => if a = t.1 then t.2 else rf a

/-- The register file after the display has received the transactions of a trace. -/
def display (rf : RegFile) (tr : List Event) : RegFile := (transactions tr).foldl applyTx rf

/-- The trace of a sequence of `Write` calls, one per `(reg, col)` pair. -/
def writes (l : List (Nat × Nat)) : List Event := l.flatMap (fun p => Write p.1 p.2)

/-- The levels written to the chip-select line, in order. -/
def csWrites (tr : List Event) : List Bool :=
  tr.filterMap (fun e => match e with
    | Event.gpio_write Pin.CS l => some l
    | _ => none)

/-- Checks, from line state `s`, that every write to the data line finds chip-select
LOW and the clock LOW and is directly followed by a write of HIGH to the clock. -/
def dataWritesOk (s : Receiver) : List Event → Bool
  | [] => true
  | e :: tr =>
    (match e with
      | Event.gpio_write Pin.DataIn _ =>
        decide (s.cs = LOW) && decide (s.clk = LOW) &&
          decide (tr.head? = some (Event.gpio_write Pin.Clock HIGH))
      | _ => true) && dataWritesOk (Receiver.step s e) tr

/-! ## Lemmas on the driver -/

theorem mask_ne_zero_iff (data i : Nat) : data &&& (1 <<< i) ≠ 0 ↔ data.testBit i = true := by
  rw [Nat.one_shiftLeft, Nat.and_two_pow]
  cases data.testBit i <;> simp

theorem SendByte_loop_succ (data i : Nat) :
    SendByte.loop data (i + 1) = clockBit (data.testBit i) ++ SendByte.loop data i := by
  have hb : (if data &&& (1 <<< (i + 1 - 1)) ≠ 0 then HIGH else LOW) = data.testBit i := by
    rw [Nat.add_sub_cancel]
    by_cases h : data.testBit i = true
    · rw [if_pos ((mask_ne_zero_iff data i).2 h), h]; rfl
    · rw [if_neg (fun c => h ((mask_ne_zero_iff data i).1 c))]
      simp only [Bool.not_eq_true] at h
      rw [h]; rfl
  simp only [SendByte.loop, hb, clockBit]

theorem SendByte_loop_eq (data : Nat) (i : Nat) :
    SendByte.loop data i = (msbBits data i).flatMap clockBit := by
  induction i with
  | zero => rfl
  | succ i ih => rw [SendByte_loop_succ, ih, msbBits, List.flatMap_cons]

theorem msbBits_length (data i : Nat) : (msbBits data i).length = i := by
  induction i with
  | zero => rfl
  | succ i ih => simp [msbBits, ih]

theorem foldl_bits_acc (bs : List Bool) (acc : Nat) :
    bs.foldl (fun a b => 2 * a + b.toNat) acc =
      acc * 2 ^ bs.length + bs.foldl (fun a b => 2 * a + b.toNat) 0 := by
  induction bs generalizing acc with
  | nil => simp
  | cons b bs ih =>
    simp only [List.foldl_cons, List.length_cons]
    rw [ih (2 * acc + b.toNat), ih (2 * 0 + b.toNat)]
    ring

theorem bitsToNat_cons (b : Bool) (bs : List Bool) :
    bitsToNat (b :: bs) = b.toNat * 2 ^ bs.length + bitsToNat bs := by
  unfold bitsToNat
  rw [List.foldl_cons, foldl_bits_acc]
  simp

theorem bitsToNat_msbBits (data i : Nat) : bitsToNat (msbBits data i) = data % 2 ^ i := by
  induction i with
  | zero => simp [msbBits, bitsToNat, Nat.mod_one]
  | succ i ih =>
    rw [msbBits, bitsToNat_cons, ih, msbBits_length, Nat.mod_pow_succ, Nat.toNat_testBit]
    ring

theorem decodeFrame_msbBits (reg col : Nat) :
    decodeFrame (msbBits reg 8 ++ msbBits col 8) = (reg % 256, col % 256) := by
  have h8 : (msbBits reg 8).length = 8 := msbBits_length reg 8
  unfold decodeFrame
  rw [List.take_left' h8, List.drop_left' h8, bitsToNat_msbBits, bitsToNat_msbBits]
  rfl

theorem run_append (s : Receiver) (a b : List Event) :
    Receiver.run s (a ++ b) = Receiver.run (Receiver.run s a) b := by
  simp [Receiver.run, List.foldl_append]

theorem run_nil (s : Receiver) : Receiver.run s [] = s := rfl

theorem run_cons (s : Receiver) (e : Event) (tr : List Event) :
    Receiver.run s (e :: tr) = Receiver.run (Receiver.step s e) tr := rfl

theorem run_clockBit (b : Bool) (s : Receiver) (h : s.cs = LOW) :
    Receiver.run s (clockBit b) = ⟨LOW, HIGH, b, s.bits ++ [b], s.frames⟩ := by
  simp [Receiver.run, clockBit, Receiver.step, h, HIGH, LOW]

theorem run_SendByte_loop (data i : Nat) (s : Receiver) (h : s.cs = LOW) :
    Receiver.run s (SendByte.loop data (i + 1)) =
      ⟨LOW, HIGH, data.testBit 0, s.bits ++ msbBits data (i + 1), s.frames⟩ := by
  induction i generalizing s with
  | zero =>
    rw [SendByte_loop_succ, SendByte.loop, List.append_nil, run_clockBit _ _ h]
    rfl
  | succ i ih =>
    rw [SendByte_loop_succ, run_append, run_clockBit _ _ h, ih _ rfl]
    simp [msbBits]

theorem run_Write (reg col : Nat) (k d : Bool) (bs : List Bool) (fr : List (List Bool)) :
    Receiver.run ⟨HIGH, k, d, bs, fr⟩ (Write reg col) =
      ⟨HIGH, HIGH, col.testBit 0, [], fr ++ [msbBits reg 8 ++ msbBits col 8]⟩ := by
  have h0 : Receiver.step ⟨HIGH, k, d, bs, fr⟩ (Event.gpio_write Pin.CS LOW) =
      ⟨LOW, k, d, [], fr⟩ := by
    simp [Receiver.step, HIGH, LOW]
  unfold Write SendByte
  rw [List.append_assoc, List.append_assoc, List.singleton_append, run_cons, h0, run_append,
    run_SendByte_loop reg 7 _ rfl, run_append, run_SendByte_loop col 7 _ rfl, run_cons, run_nil]
  simp [Receiver.step, HIGH, LOW]

theorem bcd_fields (v : Int) (h0 : 0 ≤ v) (h1 : v ≤ 99) :
    int_to_bcd v = 16 * (v / 10).toNat + (v % 10).toNat := by
  interval_cases v <;> rfl

theorem bcd_masks (v : Nat) (h : v ≤ 99) :
    int_to_bcd (v : Int) &&& 0x0F = v % 10 ∧ (int_to_bcd (v : Int) &&& 0xF0) >>> 4 = v / 10 := by
  interval_cases v <;> exact ⟨rfl, rfl⟩

theorem digit_eq (h m s : Nat) (hh : h ≤ 99) (hm : m ≤ 99) (hs : s ≤ 99) :
    digit ⟨s, m, h⟩ = [s % 10, s / 10, m % 10, m / 10, h % 10, h / 10] := by
  simp only [digit, (bcd_masks h hh).1, (bcd_masks h hh).2, (bcd_masks m hm).1,
    (bcd_masks m hm).2, (bcd_masks s hs).1, (bcd_masks s hs).2]

theorem toU8_natCast (n : Nat) (h : n < 256) : toU8 (n : Int) = n := by
  unfold toU8
  omega

theorem render_eq (d0 d1 d2 d3 d4 d5 : Nat) (h0 : d0 < 256) (h1 : d1 < 256) (h2 : d2 < 256)
    (h3 : d3 < 256) (h4 : d4 < 256) (h5 : d5 < 256) :
    render [d0, d1, d2, d3, d4, d5] =
      Write 6 d5 ++ (Write 5 d4 ++ (Write 4 d3 ++ (Write 3 d2 ++ (Write 2 d1 ++ Write 1 d0)))) := by
  have e0 := toU8_natCast d0 h0
  have e1 := toU8_natCast d1 h1
  have e2 := toU8_natCast d2 h2
  have e3 := toU8_natCast d3 h3
  have e4 := toU8_natCast d4 h4
  have e5 := toU8_natCast d5 h5
  simp only [render, renderLoop, SetDigit, List.getD_cons_succ, List.getD_cons_zero, e0, e1, e2,
    e3, e4, e5, List.append_nil]
  rfl

theorem transactions_render (d0 d1 d2 d3 d4 d5 : Nat) (h0 : d0 < 256) (h1 : d1 < 256)
    (h2 : d2 < 256) (h3 : d3 < 256) (h4 : d4 < 256) (h5 : d5 < 256) :
    transactions (render [d0, d1, d2, d3, d4, d5]) =
      [(6, d5), (5, d4), (4, d3), (3, d2), (2, d1), (1, d0)] := by
  rw [render_eq d0 d1 d2 d3 d4 d5 h0 h1 h2 h3 h4 h5]
  simp only [transactions, sampledBits, Receiver.idle, run_append, run_Write,
    List.nil_append, List.append_assoc, List.singleton_append, List.map_cons,
    List.map_nil, decodeFrame_msbBits]
  simp [decodeFrame_msbBits, Nat.mod_eq_of_lt, h0, h1, h2, h3, h4, h5]

theorem SetupBasics_eq (b : Nat) (hb : b < 256) :
    SetupBasics (b : Int) =
      Write 0x0B 0x05 ++ Write 0x09 0x00 ++ Write 0x0C 0x01 ++ Write 0x0F 0x00 ++ Write 0x0A b := by
  simp only [SetupBasics, toU8_natCast b hb]
  rfl

theorem run_SetupBasics (b : Int) (k d : Bool) (bs : List Bool) (fr : List (List Bool)) :
    Receiver.run ⟨HIGH, k, d, bs, fr⟩ (SetupBasics b) =
      ⟨HIGH, HIGH, (toU8 b).testBit 0, [],
        fr ++ [msbBits 0x0B 8 ++ msbBits 0x05 8, msbBits 0x09 8 ++ msbBits 0x00 8,
          msbBits 0x0C 8 ++ msbBits 0x01 8, msbBits 0x0F 8 ++ msbBits 0x00 8,
          msbBits 0x0A 8 ++ msbBits (toU8 b) 8]⟩ := by
  simp only [SetupBasics, run_append, run_Write, max7219_reg_scanLimit, max7219_reg_decodeMode,
    max7219_reg_shutdown, max7219_reg_displayTest, max7219_reg_intensity, List.append_assoc,
    List.singleton_append, List.cons_append, List.nil_append]

theorem toU8_lt (x : Int) : toU8 x < 256 := by
  unfold toU8
  omega

/-! ## Properties of the specification -/

/-- C1: for every integer `v` with `0 ≤ v ≤ 59`, the byte `int_to_bcd v` has high
nibble `v / 10` and low nibble `v % 10`. -/
theorem int_to_bcd_nibbles (v : Int) (h0 : 0 ≤ v) (h1 : v ≤ 59) :
    int_to_bcd v < 256 ∧ ((int_to_bcd v / 16 : Nat) : Int) = v / 10 ∧
      ((int_to_bcd v % 16 : Nat) : Int) = v % 10 := by
  rw [bcd_fields v h0 (by omega)]
  omega

theorem int_to_bcd_nibbles_witness :
    int_to_bcd 37 < 256 ∧ ((int_to_bcd 37 / 16 : Nat) : Int) = 37 / 10 ∧
      ((int_to_bcd 37 % 16 : Nat) : Int) = 37 % 10 :=
  int_to_bcd_nibbles 37 (by decide) (by decide)

/-- C2: for a sample with hours in 0..23, minutes in 0..59 and seconds in 0..59, the
array `digit[0..5]` built in `main` has six elements, each in `[0,9]`, and decodes back
to the sample: `digit[5]*10+digit[4]` is the hours, `digit[3]*10+digit[2]` the minutes,
`digit[1]*10+digit[0]` the seconds. -/
theorem digit_roundtrip (h m s : Nat) (hh : h ≤ 23) (hm : m ≤ 59) (hs : s ≤ 59) :
    (digit ⟨s, m, h⟩).length = 6 ∧ (∀ x ∈ digit ⟨s, m, h⟩, x ≤ 9) ∧
      (digit ⟨s, m, h⟩).getD 5 0 * 10 + (digit ⟨s, m, h⟩).getD 4 0 = h ∧
      (digit ⟨s, m, h⟩).getD 3 0 * 10 + (digit ⟨s, m, h⟩).getD 2 0 = m ∧
      (digit ⟨s, m, h⟩).getD 1 0 * 10 + (digit ⟨s, m, h⟩).getD 0 0 = s := by
  rw [digit_eq h m s (by omega) (by omega) (by omega)]
  refine ⟨rfl, ?_, ?_, ?_, ?_⟩
  · intro x hx
    simp only [List.mem_cons, List.mem_singleton, List.not_mem_nil, or_false] at hx
    omega
  · simp only [List.getD_cons_succ, List.getD_cons_zero]; omega
  · simp only [List.getD_cons_succ, List.getD_cons_zero]; omega
  · simp only [List.getD_cons_succ, List.getD_cons_zero]; omega

theorem digit_roundtrip_witness :
    (digit ⟨58, 59, 23⟩).length = 6 ∧ (∀ x ∈ digit ⟨58, 59, 23⟩, x ≤ 9) ∧
      (digit ⟨58, 59, 23⟩).getD 5 0 * 10 + (digit ⟨58, 59, 23⟩).getD 4 0 = 23 ∧
      (digit ⟨58, 59, 23⟩).getD 3 0 * 10 + (digit ⟨58, 59, 23⟩).getD 2 0 = 59 ∧
      (digit ⟨58, 59, 23⟩).getD 1 0 * 10 + (digit ⟨58, 59, 23⟩).getD 0 0 = 58 :=
  digit_roundtrip 23 59 58 (by decide) (by decide) (by decide)

theorem SendByte_loop_counts (data i : Nat) :
    (SendByte.loop data i).length = 3 * i ∧
      (SendByte.loop data i).count (Event.gpio_write Pin.Clock LOW) = i ∧
      (SendByte.loop data i).count (Event.gpio_write Pin.Clock HIGH) = i ∧
      (SendByte.loop data i).count (Event.gpio_write Pin.CS LOW) = 0 ∧
      (SendByte.loop data i).count (Event.gpio_write Pin.CS HIGH) = 0 := by
  induction i with
  | zero => simp [SendByte.loop]
  | succ i ih =>
    rw [SendByte_loop_succ]
    simp only [HIGH, LOW] at ih ⊢
    obtain ⟨h1, h2, h3, h4, h5⟩ := ih
    simp [clockBit, List.count_cons, h1, h2, h3, h4, h5, HIGH, LOW]
    omega

/-- C3: for every valid sample the render step issues exactly six register-write
transactions, at addresses 6,5,4,3,2,1 in that order, carrying hours-tens, hours-ones,
minutes-tens, minutes-ones, seconds-tens, seconds-ones; the sample 23:59:58 gives the
frame `[8,5,9,5,3,2]` and the transactions (6,2),(5,3),(4,5),(3,9),(2,5),(1,8). -/
theorem render_transactions (h m s : Nat) (hh : h ≤ 23) (hm : m ≤ 59) (hs : s ≤ 59) :
    render (digit ⟨s, m, h⟩) =
        Write 6 (h / 10) ++ (Write 5 (h % 10) ++ (Write 4 (m / 10) ++ (Write 3 (m % 10) ++
          (Write 2 (s / 10) ++ Write 1 (s % 10))))) ∧
      transactions (render (digit ⟨s, m, h⟩)) =
        [(6, h / 10), (5, h % 10), (4, m / 10), (3, m % 10), (2, s / 10), (1, s % 10)] ∧
      digit ⟨58, 59, 23⟩ = [8, 5, 9, 5, 3, 2] ∧
      transactions (render (digit ⟨58, 59, 23⟩)) = [(6, 2), (5, 3), (4, 5), (3, 9), (2, 5), (1, 8)] := by
  have e := digit_eq h m s (by omega) (by omega) (by omega)
  have e2 : digit ⟨58, 59, 23⟩ = [8, 5, 9, 5, 3, 2] := by decide
  refine ⟨?_, ?_, e2, ?_⟩
  · rw [e]
    exact render_eq _ _ _ _ _ _ (by omega) (by omega) (by omega) (by omega) (by omega) (by omega)
  · rw [e]
    exact transactions_render _ _ _ _ _ _ (by omega) (by omega) (by omega) (by omega) (by omega)
      (by omega)
  · rw [e2]
    exact transactions_render _ _ _ _ _ _ (by omega) (by omega) (by omega) (by omega) (by omega)
      (by omega)

theorem render_transactions_witness :
    transactions (render (digit ⟨7, 30, 12⟩)) = [(6, 1), (5, 2), (4, 3), (3, 0), (2, 0), (1, 7)] :=
  (render_transactions 12 30 7 (by decide) (by decide) (by decide)).2.1

/-- C4: for every pair of bytes, `Write reg col` is exactly: chip-select LOW; for each
bit of `reg` from bit 7 down to bit 0 the triple (clock LOW, data = that bit, clock HIGH);
the same eight triples for `col`; chip-select HIGH. That is 50 pin writes, 16 clock
pulses, and nothing else. -/
theorem Write_trace (reg col : Nat) :
    Write reg col =
        [Event.gpio_write Pin.CS LOW] ++
        ([7, 6, 5, 4, 3, 2, 1, 0].flatMap fun k =>
          [Event.gpio_write Pin.Clock LOW, Event.gpio_write Pin.DataIn (reg.testBit k),
            Event.gpio_write Pin.Clock HIGH]) ++
        ([7, 6, 5, 4, 3, 2, 1, 0].flatMap fun k =>
          [Event.gpio_write Pin.Clock LOW, Event.gpio_write Pin.DataIn (col.testBit k),
            Event.gpio_write Pin.Clock HIGH]) ++
        [Event.gpio_write Pin.CS HIGH] ∧
      (Write reg col).length = 50 ∧
      (Write reg col).count (Event.gpio_write Pin.Clock LOW) = 16 ∧
      (Write reg col).count (Event.gpio_write Pin.Clock HIGH) = 16 ∧
      (Write reg col).count (Event.gpio_write Pin.CS LOW) = 1 ∧
      (Write reg col).count (Event.gpio_write Pin.CS HIGH) = 1 := by
  have e : Write reg col =
      [Event.gpio_write Pin.CS LOW] ++
        ([7, 6, 5, 4, 3, 2, 1, 0].flatMap fun k =>
          [Event.gpio_write Pin.Clock LOW, Event.gpio_write Pin.DataIn (reg.testBit k),
            Event.gpio_write Pin.Clock HIGH]) ++
        ([7, 6, 5, 4, 3, 2, 1, 0].flatMap fun k =>
          [Event.gpio_write Pin.Clock LOW, Event.gpio_write Pin.DataIn (col.testBit k),
            Event.gpio_write Pin.Clock HIGH]) ++
        [Event.gpio_write Pin.CS HIGH] := by
    unfold Write SendByte
    rw [SendByte_loop_eq, SendByte_loop_eq]
    rfl
  have c := SendByte_loop_counts reg 8
  have d := SendByte_loop_counts col 8
  simp only [HIGH, LOW] at c d
  refine ⟨e, ?_, ?_, ?_, ?_, ?_⟩ <;>
    simp [Write, SendByte, List.count_append, List.count_cons, c, d, HIGH, LOW]

theorem sampledBits_Write (reg col : Nat) :
    sampledBits (Write reg col) = [msbBits reg 8 ++ msbBits col 8] := by
  simp only [sampledBits, Receiver.idle, run_Write, List.nil_append]

theorem transactions_Write (reg col : Nat) :
    transactions (Write reg col) = [(reg % 256, col % 256)] := by
  simp only [transactions, sampledBits_Write, List.map_cons, List.map_nil, decodeFrame_msbBits]

/-- C5: for bytes `reg` and `col`, a receiver sampling the data line on each rising
clock edge between chip-select LOW and chip-select HIGH in the trace of `Write reg col`
obtains one window of exactly 16 bits; read MSB first as an 8-bit address and an 8-bit
data byte they are `(reg, col)`; hence distinct byte pairs give distinct traces. -/
theorem Write_received (reg col : Nat) (hr : reg < 256) (hc : col < 256) :
    (∃ bits, sampledBits (Write reg col) = [bits] ∧ bits.length = 16 ∧
        bitsToNat (bits.take 8) = reg ∧ bitsToNat (bits.drop 8) = col) ∧
      transactions (Write reg col) = [(reg, col)] ∧
      (∀ reg2 col2, reg2 < 256 → col2 < 256 → Write reg2 col2 = Write reg col →
        reg2 = reg ∧ col2 = col) := by
  have ht : ∀ r c, r < 256 → c < 256 → transactions (Write r c) = [(r, c)] := by
    intro r c h1 h2
    rw [transactions_Write, Nat.mod_eq_of_lt h1, Nat.mod_eq_of_lt h2]
  refine ⟨⟨msbBits reg 8 ++ msbBits col 8, sampledBits_Write reg col, ?_, ?_, ?_⟩, ht reg col hr hc, ?_⟩
  · simp [msbBits_length]
  · have h := decodeFrame_msbBits reg col
    unfold decodeFrame at h
    rw [(Prod.mk.inj h).1, Nat.mod_eq_of_lt hr]
  · have h := decodeFrame_msbBits reg col
    unfold decodeFrame at h
    rw [(Prod.mk.inj h).2, Nat.mod_eq_of_lt hc]
  · intro reg2 col2 h1 h2 heq
    have h := ht reg2 col2 h1 h2
    rw [heq, ht reg col hr hc] at h
    simpa using h.symm

theorem Write_received_witness :
    transactions (Write 0x0B 0x05) = [(0x0B, 0x05)] :=
  (Write_received 0x0B 0x05 (by decide) (by decide)).2.1

/-- C6: for every brightness `b` in `[1,15]`, `SetupBasics b` issues exactly five
register-write transactions, in the order scan-limit (0x0B) = 0x05, decode-mode
(0x09) = 0x00, shutdown (0x0C) = 0x01, display-test (0x0F) = 0x00, intensity (0x0A) = b,
the intensity byte being `b` itself. -/
theorem SetupBasics_transactions (b : Nat) (h1 : 1 ≤ b) (h15 : b ≤ 15) :
    SetupBasics (b : Int) =
        Write 0x0B 0x05 ++ Write 0x09 0x00 ++ Write 0x0C 0x01 ++ Write 0x0F 0x00 ++ Write 0x0A b ∧
      transactions (SetupBasics (b : Int)) =
        [(0x0B, 0x05), (0x09, 0x00), (0x0C, 0x01), (0x0F, 0x00), (0x0A, b)] := by
  refine ⟨SetupBasics_eq b (by omega), ?_⟩
  simp only [transactions, sampledBits, Receiver.idle, run_SetupBasics, List.nil_append,
    List.map_cons, List.map_nil, decodeFrame_msbBits, toU8_natCast b (by omega)]
  simp
  omega

theorem SetupBasics_transactions_witness :
    transactions (SetupBasics 8) = [(0x0B, 0x05), (0x09, 0x00), (0x0C, 0x01), (0x0F, 0x00), (0x0A, 8)] :=
  (SetupBasics_transactions 8 (by decide) (by decide)).2

/-- C7: the effective intensity is 8 when no argument is given; otherwise, for the
integer `n` the argument parses to, it is `n` when `1 ≤ n ≤ 15`, 1 when `n < 1` and 15
when `n > 15` (0 gives 1, -5 gives 1, 7 gives 7, 15 gives 15, 20 gives 15); it is
always in `[1,15]`. -/
theorem iBrightness_clamp (argc n : Int) :
    (argc ≤ 1 → iBrightness argc n = 8) ∧
      (1 < argc →
        (1 ≤ n → n ≤ 15 → iBrightness argc n = n) ∧
        (n < 1 → iBrightness argc n = 1) ∧
        (15 < n → iBrightness argc n = 15)) ∧
      (1 ≤ iBrightness argc n ∧ iBrightness argc n ≤ 15) ∧
      iBrightness 1 n = 8 ∧
      iBrightness 2 0 = 1 ∧ iBrightness 2 (-5) = 1 ∧ iBrightness 2 7 = 7 ∧
      iBrightness 2 15 = 15 ∧ iBrightness 2 20 = 15 := by
  refine ⟨?_, ?_, ?_, ?_, by decide, by decide, by decide, by decide, by decide⟩
  · intro h
    simp only [iBrightness]
    split_ifs <;> omega
  · intro h
    refine ⟨?_, ?_, ?_⟩ <;> intros <;> simp only [iBrightness] <;> split_ifs <;> omega
  · simp only [iBrightness]
    split_ifs <;> omega
  · simp [iBrightness]

theorem blankLoop_eq :
    blankLoop 0 8 = Write 1 0 ++ (Write 2 0 ++ (Write 3 0 ++ (Write 4 0 ++ (Write 5 0 ++
      (Write 6 0 ++ (Write 7 0 ++ Write 8 0)))))) := by
  simp only [blankLoop, SetDigit, List.append_nil]
  rfl

theorem Write_mem (reg col : Nat) (e : Event) (h : e ∈ Write reg col) :
    ∃ p l, e = Event.gpio_write p l := by
  unfold Write SendByte at h
  rw [SendByte_loop_eq, SendByte_loop_eq] at h
  simp only [List.mem_append, List.mem_singleton, List.mem_flatMap, clockBit, List.mem_cons,
    List.not_mem_nil, or_false] at h
  rcases h with ((h | ⟨_, _, h | h | h⟩) | ⟨_, _, h | h | h⟩) | h <;> exact ⟨_, _, h⟩

theorem sampler_events_head (old : Nat) (clock : List Tm) :
    (sampler old clock).1 = [] ∨ ∃ t, (sampler old clock).1 = Event.time_read :: t := by
  cases clock with
  | nil => exact Or.inl rfl
  | cons tm rest =>
    right
    unfold sampler
    split_ifs
    · exact ⟨_, rfl⟩
    · exact ⟨_, rfl⟩

theorem sampler_some_events (old : Nat) (clock : List Tm) (r : Tm × List Tm)
    (h : (sampler old clock).2 = some r) : ∃ t, (sampler old clock).1 = Event.time_read :: t := by
  cases clock with
  | nil => simp [sampler] at h
  | cons tm rest =>
    unfold sampler
    split_ifs
    · exact ⟨_, rfl⟩
    · exact ⟨_, rfl⟩

theorem mainLoop_head (b : Int) (n old : Nat) (clock : List Tm) :
    ∃ B, mainLoop b (n + 1) old clock = SetupBasics b ++ B ∧
      (B = [] ∨ ∃ t, B = Event.time_read :: t) := by
  unfold mainLoop loopBody
  cases h : (sampler old clock).2 with
  | none =>
    refine ⟨(sampler old clock).1, ?_, sampler_events_head old clock⟩
    simp [h]
  | some r =>
    obtain ⟨t, ht⟩ := sampler_some_events old clock r h
    refine ⟨(sampler old clock).1 ++ render (digit r.1) ++ mainLoop b n (toU8 r.1.tm_sec) r.2, ?_, ?_⟩
    · simp [h]
    · right
      rw [ht]
      exact ⟨_, rfl⟩

theorem run_blankLoop (k d : Bool) (bs : List Bool) (fr : List (List Bool)) :
    Receiver.run ⟨HIGH, k, d, bs, fr⟩ (blankLoop 0 8) =
      ⟨HIGH, HIGH, false, [],
        fr ++ [msbBits 1 8 ++ msbBits 0 8, msbBits 2 8 ++ msbBits 0 8, msbBits 3 8 ++ msbBits 0 8,
          msbBits 4 8 ++ msbBits 0 8, msbBits 5 8 ++ msbBits 0 8, msbBits 6 8 ++ msbBits 0 8,
          msbBits 7 8 ++ msbBits 0 8, msbBits 8 8 ++ msbBits 0 8]⟩ := by
  simp only [blankLoop_eq, run_append, run_Write, List.append_assoc, List.singleton_append,
    List.cons_append, List.nil_append]
  rfl

theorem SetupBasics_mem (b : Int) (e : Event) (h : e ∈ SetupBasics b) :
    ∃ p l, e = Event.gpio_write p l := by
  simp only [SetupBasics, List.mem_append] at h
  rcases h with (((h | h) | h) | h) | h <;> exact Write_mem _ _ e h

theorem blankLoop_mem (e : Event) (h : e ∈ blankLoop 0 8) : ∃ p l, e = Event.gpio_write p l := by
  rw [blankLoop_eq] at h
  simp only [List.mem_append] at h
  rcases h with h | h | h | h | h | h | h | h <;> exact Write_mem _ _ e h

theorem time_read_not_mem_SetupBasics (b : Int) : Event.time_read ∉ SetupBasics b := by
  intro h
  obtain ⟨p, l, hpl⟩ := SetupBasics_mem b _ h
  exact Event.noConfusion hpl

theorem time_read_not_mem_blankLoop : Event.time_read ∉ blankLoop 0 8 := by
  intro h
  obtain ⟨p, l, hpl⟩ := blankLoop_mem _ h
  exact Event.noConfusion hpl

theorem startup_mem (b : Int) (e : Event) (h : e ∈ Event.gettimeofday :: startup b ++ SetupBasics b) :
    e ≠ Event.time_read := by
  rintro rfl
  simp [startup, time_read_not_mem_SetupBasics, time_read_not_mem_blankLoop] at h

theorem beforeFirstClockRead_main (argc n : Int) (clock : List Tm) :
    beforeFirstClockRead (main argc n true clock).1 =
      Event.gettimeofday :: startup (iBrightness argc n) ++ SetupBasics (iBrightness argc n) := by
  obtain ⟨B, hB, hhead⟩ := mainLoop_head (iBrightness argc n) clock.length 0xFF clock
  have hm : (main argc n true clock).1 =
      (Event.gettimeofday :: startup (iBrightness argc n) ++ SetupBasics (iBrightness argc n)) ++ B := by
    simp [main, hB]
  rw [hm, beforeFirstClockRead, List.takeWhile_append_of_pos]
  · rcases hhead with rfl | ⟨t, rfl⟩
    · simp
    · simp
  · intro a ha
    simpa using startup_mem _ a ha

theorem iBrightness_toU8 (argc n : Int) :
    toU8 (iBrightness argc n) = (iBrightness argc n).toNat ∧ (iBrightness argc n).toNat < 256 := by
  have h : 1 ≤ iBrightness argc n ∧ iBrightness argc n ≤ 15 := by
    simp only [iBrightness]
    split_ifs <;> omega
  unfold toU8
  omega

theorem run_pinSetup :
    Receiver.run Receiver.idle
      [Event.gettimeofday, Event.gpio_fsel Pin.DataIn, Event.gpio_fsel Pin.Clock,
        Event.gpio_fsel Pin.CS, Event.gpio_write Pin.DataIn HIGH, Event.gpio_write Pin.Clock HIGH,
        Event.gpio_write Pin.CS HIGH] = ⟨HIGH, HIGH, HIGH, [], []⟩ := by
  decide

theorem startup_split (b : Int) :
    Event.gettimeofday :: startup b =
      [Event.gettimeofday, Event.gpio_fsel Pin.DataIn, Event.gpio_fsel Pin.Clock,
        Event.gpio_fsel Pin.CS, Event.gpio_write Pin.DataIn HIGH, Event.gpio_write Pin.Clock HIGH,
        Event.gpio_write Pin.CS HIGH] ++ (SetupBasics b ++ (blankLoop 0 8 ++ [Event.gettimeofday])) := by
  simp [startup]

theorem run_startup (b : Int) :
    Receiver.run Receiver.idle (Event.gettimeofday :: startup b) =
      ⟨HIGH, HIGH, false, [],
        [msbBits 0x0B 8 ++ msbBits 0x05 8, msbBits 0x09 8 ++ msbBits 0x00 8,
          msbBits 0x0C 8 ++ msbBits 0x01 8, msbBits 0x0F 8 ++ msbBits 0x00 8,
          msbBits 0x0A 8 ++ msbBits (toU8 b) 8,
          msbBits 1 8 ++ msbBits 0 8, msbBits 2 8 ++ msbBits 0 8, msbBits 3 8 ++ msbBits 0 8,
          msbBits 4 8 ++ msbBits 0 8, msbBits 5 8 ++ msbBits 0 8, msbBits 6 8 ++ msbBits 0 8,
          msbBits 7 8 ++ msbBits 0 8, msbBits 8 8 ++ msbBits 0 8]⟩ := by
  rw [startup_split, run_append, run_pinSetup, run_append, run_SetupBasics, run_append,
    run_blankLoop, run_cons, run_nil]
  rfl

theorem decodeFrame_bytes (reg col : Nat) (hr : reg < 256) (hc : col < 256) :
    decodeFrame (msbBits reg 8 ++ msbBits col 8) = (reg, col) := by
  rw [decodeFrame_msbBits, Nat.mod_eq_of_lt hr, Nat.mod_eq_of_lt hc]

/-- C8: when hardware initialisation succeeds, the transactions issued before the main
loop first reads the clock are the startup configuration, then one write of 0 to each
of the addresses 1..8 in ascending order (all before the loop is entered), then the
configuration again; each address in 1..8 is written exactly once, with value 0. -/
theorem startup_blanks_digits (argc n : Int) (clock : List Tm) :
    (main argc n true clock).1 =
        Event.gettimeofday :: startup (iBrightness argc n) ++
          mainLoop (iBrightness argc n) (clock.length + 1) 0xFF clock ∧
      transactions (Event.gettimeofday :: startup (iBrightness argc n)) =
        [(0x0B, 0x05), (0x09, 0x00), (0x0C, 0x01), (0x0F, 0x00), (0x0A, (iBrightness argc n).toNat),
          (1, 0), (2, 0), (3, 0), (4, 0), (5, 0), (6, 0), (7, 0), (8, 0)] ∧
      transactions (beforeFirstClockRead (main argc n true clock).1) =
        [(0x0B, 0x05), (0x09, 0x00), (0x0C, 0x01), (0x0F, 0x00), (0x0A, (iBrightness argc n).toNat),
          (1, 0), (2, 0), (3, 0), (4, 0), (5, 0), (6, 0), (7, 0), (8, 0),
          (0x0B, 0x05), (0x09, 0x00), (0x0C, 0x01), (0x0F, 0x00), (0x0A, (iBrightness argc n).toNat)] ∧
      (∀ a, 1 ≤ a → a ≤ 8 →
        (transactions (beforeFirstClockRead (main argc n true clock).1)).filter
          (fun p => decide (p.1 = a)) = [(a, 0)]) := by
  obtain ⟨hb, hlt⟩ := iBrightness_toU8 argc n
  have h1 : transactions (Event.gettimeofday :: startup (iBrightness argc n)) =
      [(0x0B, 0x05), (0x09, 0x00), (0x0C, 0x01), (0x0F, 0x00), (0x0A, (iBrightness argc n).toNat),
        (1, 0), (2, 0), (3, 0), (4, 0), (5, 0), (6, 0), (7, 0), (8, 0)] := by
    simp only [transactions, sampledBits, run_startup, hb, List.map_cons, List.map_nil]
    rw [decodeFrame_bytes _ _ (by omega) hlt]
    simp only [decodeFrame_msbBits]
  have h2 : transactions (beforeFirstClockRead (main argc n true clock).1) =
      [(0x0B, 0x05), (0x09, 0x00), (0x0C, 0x01), (0x0F, 0x00), (0x0A, (iBrightness argc n).toNat),
        (1, 0), (2, 0), (3, 0), (4, 0), (5, 0), (6, 0), (7, 0), (8, 0),
        (0x0B, 0x05), (0x09, 0x00), (0x0C, 0x01), (0x0F, 0x00), (0x0A, (iBrightness argc n).toNat)] := by
    rw [beforeFirstClockRead_main, transactions, sampledBits, run_append, run_startup,
      run_SetupBasics]
    simp only [hb, List.map_cons, List.map_nil, List.cons_append, List.nil_append]
    rw [decodeFrame_bytes _ _ (by omega) hlt]
    simp only [decodeFrame_msbBits]
  refine ⟨by simp [main], h1, h2, ?_⟩
  intro a ha1 ha8
  rw [h2]
  interval_cases a <;> simp [List.filter_cons]

theorem sampler_skip (old : Nat) (pre : List Tm) (tm : Tm) (post : List Tm)
    (hpre : ∀ r ∈ pre, r.tm_sec = (old : Int)) (hne : tm.tm_sec ≠ (old : Int)) :
    sampler old (pre ++ tm :: post) =
      (pre.flatMap (fun _ => [Event.time_read, Event.delay 50]) ++ [Event.time_read],
        some (tm, post)) := by
  induction pre with
  | nil => simp [sampler, hne]
  | cons r pre ih =>
    have hr : r.tm_sec = (old : Int) := hpre r (List.mem_cons_self r pre)
    have ih2 := ih (fun x hx => hpre x (List.mem_cons_of_mem r hx))
    simp [sampler, hr, ih2]

theorem sampler_same (old : Nat) (rs : List Tm) (h : ∀ r ∈ rs, r.tm_sec = (old : Int)) :
    sampler old rs = (rs.flatMap (fun _ => [Event.time_read, Event.delay 50]), none) := by
  induction rs with
  | nil => rfl
  | cons r rs ih =>
    have hr : r.tm_sec = (old : Int) := h r (List.mem_cons_self r rs)
    have ih2 := ih (fun x hx => h x (List.mem_cons_of_mem r hx))
    simp [sampler, hr, ih2]

theorem run_polls (s : Receiver) (rs : List Tm) :
    Receiver.run s (rs.flatMap (fun _ => [Event.time_read, Event.delay 50])) = s := by
  induction rs with
  | nil => rfl
  | cons r rs ih =>
    have h0 : Receiver.run s [Event.time_read, Event.delay 50] = s := rfl
    rw [List.flatMap_cons, run_append, h0, ih]

/-- C9: from any previously observed seconds value `old`, the sampler discards, with
one 50 ms delay each, every reading whose seconds equal `old`, returns the first reading
`tm` whose seconds differ, and the loop records `tm`'s seconds as the new previous value;
further readings within that same second give no new sample and no digit transaction
(only the five configuration writes are issued). -/
theorem sampler_returns_first_change (b : Int) (old : Nat) (pre : List Tm) (tm : Tm)
    (post : List Tm) (hpre : ∀ r ∈ pre, r.tm_sec = (old : Int)) (hne : tm.tm_sec ≠ (old : Int))
    (hsec : 0 ≤ tm.tm_sec ∧ tm.tm_sec ≤ 60) :
    sampler old (pre ++ tm :: post) =
        (pre.flatMap (fun _ => [Event.time_read, Event.delay 50]) ++ [Event.time_read],
          some (tm, post)) ∧
      (loopBody b old (pre ++ tm :: post)).2 = some (tm.tm_sec.toNat, post) ∧
      (∀ same : List Tm, (∀ r ∈ same, r.tm_sec = tm.tm_sec) →
        sampler tm.tm_sec.toNat same =
            (same.flatMap (fun _ => [Event.time_read, Event.delay 50]), none) ∧
          loopBody b tm.tm_sec.toNat same =
            (SetupBasics b ++ same.flatMap (fun _ => [Event.time_read, Event.delay 50]), none) ∧
          transactions (loopBody b tm.tm_sec.toNat same).1 =
            [(0x0B, 0x05), (0x09, 0x00), (0x0C, 0x01), (0x0F, 0x00), (0x0A, toU8 b)]) := by
  have hs := sampler_skip old pre tm post hpre hne
  have hu : toU8 tm.tm_sec = tm.tm_sec.toNat := by
    unfold toU8
    omega
  refine ⟨hs, ?_, ?_⟩
  · simp [loopBody, hs, hu]
  · intro same hsame
    have hcast : ((tm.tm_sec.toNat : Nat) : Int) = tm.tm_sec := by omega
    have h2 := sampler_same tm.tm_sec.toNat same (fun r hr => by rw [hsame r hr, hcast])
    have h3 : loopBody b tm.tm_sec.toNat same =
        (SetupBasics b ++ same.flatMap (fun _ => [Event.time_read, Event.delay 50]), none) := by
      simp [loopBody, h2]
    refine ⟨h2, h3, ?_⟩
    rw [h3, transactions, sampledBits, run_append, run_polls, Receiver.idle, run_SetupBasics]
    simp only [List.nil_append, List.map_cons, List.map_nil, decodeFrame_msbBits]
    rw [Nat.mod_eq_of_lt (toU8_lt b)]

theorem sampler_returns_first_change_witness :
    sampler 58 ([⟨58, 59, 23⟩, ⟨58, 59, 23⟩] ++ ⟨59, 59, 23⟩ :: [⟨0, 0, 0⟩]) =
      ([Event.time_read, Event.delay 50, Event.time_read, Event.delay 50, Event.time_read],
        some (⟨59, 59, 23⟩, [⟨0, 0, 0⟩])) :=
  (sampler_returns_first_change 8 58 [⟨58, 59, 23⟩, ⟨58, 59, 23⟩] ⟨59, 59, 23⟩ [⟨0, 0, 0⟩]
    (by decide) (by decide) (by decide)).1

/-- C10: for a sample with hours in 0..23, minutes in 0..59 and seconds in 0..59, the
nibbles sent to the display satisfy: hours-tens (`digit[5]`) in `[0,2]`, minutes-tens
(`digit[3]`) and seconds-tens (`digit[1]`) in `[0,5]`, every ones nibble in `[0,9]`. -/
theorem digit_bounds (h m s : Nat) (hh : h ≤ 23) (hm : m ≤ 59) (hs : s ≤ 59) :
    ∃ d0 d1 d2 d3 d4 d5 : Nat,
      digit ⟨s, m, h⟩ = [d0, d1, d2, d3, d4, d5] ∧
      transactions (render (digit ⟨s, m, h⟩)) =
        [(6, d5), (5, d4), (4, d3), (3, d2), (2, d1), (1, d0)] ∧
      d5 ≤ 2 ∧ d3 ≤ 5 ∧ d1 ≤ 5 ∧ d4 ≤ 9 ∧ d2 ≤ 9 ∧ d0 ≤ 9 := by
  have e := digit_eq h m s (by omega) (by omega) (by omega)
  refine ⟨s % 10, s / 10, m % 10, m / 10, h % 10, h / 10, e, ?_, by omega, by omega, by omega,
    by omega, by omega, by omega⟩
  rw [e]
  exact transactions_render _ _ _ _ _ _ (by omega) (by omega) (by omega) (by omega) (by omega)
    (by omega)

theorem digit_bounds_witness :
    ∃ d0 d1 d2 d3 d4 d5 : Nat,
      digit ⟨59, 59, 23⟩ = [d0, d1, d2, d3, d4, d5] ∧
      transactions (render (digit ⟨59, 59, 23⟩)) =
        [(6, d5), (5, d4), (4, d3), (3, d2), (2, d1), (1, d0)] ∧
      d5 ≤ 2 ∧ d3 ≤ 5 ∧ d1 ≤ 5 ∧ d4 ≤ 9 ∧ d2 ≤ 9 ∧ d0 ≤ 9 :=
  digit_bounds 23 59 59 (by decide) (by decide) (by decide)


/-- C11: if `bcm2835_init` fails, `main` returns exit status 1 having performed no pin
write and no register-write transaction (it only reads the time of day and prints the
diagnostic); if it succeeds `main` does not return 1, so the failure exit happens exactly
when initialisation fails. -/
theorem init_failure_exit (argc n : Int) (clock : List Tm) (ok : Bool) :
    (main argc n false clock).2 = some 1 ∧
      (main argc n false clock).1 =
        [Event.gettimeofday, Event.printf "bcm2835_init failed!\n"] ∧
      (∀ p l, Event.gpio_write p l ∉ (main argc n false clock).1) ∧
      transactions (main argc n false clock).1 = [] ∧
      (main argc n true clock).2 ≠ some 1 ∧
      ((main argc n ok clock).2 = some 1 ↔ ok = false) := by
  refine ⟨rfl, rfl, ?_, rfl, ?_, ?_⟩
  · intro p l h
    simp [main] at h
  · simp [main]
  · cases ok <;> simp [main]

/-- C16: for every integer `v` with `0 ≤ v ≤ 99`, `int_to_bcd v` is `16*(v/10) + v%10`
(the bitwise OR coincides with addition), the value fits in 8 bits so the conversion to
`uint8_t` truncates nothing, both nibbles are at most 9 and `10*high + low = v`, hence
`int_to_bcd` is injective on `[0,99]`; a leap second 60 encodes to `0x60`, tens nibble 6. -/
theorem int_to_bcd_packed (v : Int) (h0 : 0 ≤ v) (h1 : v ≤ 99) :
    Int.lor ((Int.tdiv v 10) <<< (4 : Int)) (Int.tmod v 10) =
        ((Int.tdiv v 10) <<< (4 : Int)) + Int.tmod v 10 ∧
      Int.lor ((Int.tdiv v 10) <<< (4 : Int)) (Int.tmod v 10) = 16 * (v / 10) + v % 10 ∧
      (int_to_bcd v : Int) = 16 * (v / 10) + v % 10 ∧
      int_to_bcd v < 256 ∧
      int_to_bcd v / 16 ≤ 9 ∧ int_to_bcd v % 16 ≤ 9 ∧
      ((10 * (int_to_bcd v / 16) + int_to_bcd v % 16 : Nat) : Int) = v ∧
      (∀ w : Int, 0 ≤ w → w ≤ 99 → int_to_bcd w = int_to_bcd v → w = v) ∧
      int_to_bcd 60 = 0x60 ∧ int_to_bcd 60 / 16 = 6 := by
  have e := bcd_fields v h0 h1
  refine ⟨?_, ?_, ?_, ?_, ?_, ?_, ?_, ?_, by decide, by decide⟩
  · interval_cases v <;> rfl
  · interval_cases v <;> rfl
  · rw [e]; omega
  · rw [e]; omega
  · rw [e]; omega
  · rw [e]; omega
  · rw [e]; omega
  · intro w hw0 hw1 hwv
    rw [e, bcd_fields w hw0 hw1] at hwv
    omega

theorem int_to_bcd_packed_witness :
    (int_to_bcd 60 : Int) = 16 * (60 / 10) + 60 % 10 ∧ int_to_bcd 60 < 256 :=
  ⟨(int_to_bcd_packed 60 (by decide) (by decide)).2.2.1,
    (int_to_bcd_packed 60 (by decide) (by decide)).2.2.2.1⟩

theorem transactions_SetupBasics (b : Int) :
    transactions (SetupBasics b) =
      [(0x0B, 0x05), (0x09, 0x00), (0x0C, 0x01), (0x0F, 0x00), (0x0A, toU8 b)] := by
  rw [transactions, sampledBits, Receiver.idle, run_SetupBasics]
  simp only [List.nil_append, List.map_cons, List.map_nil, decodeFrame_msbBits]
  rw [Nat.mod_eq_of_lt (toU8_lt b)]

theorem transactions_SetupBasics_twice (b : Int) :
    transactions (SetupBasics b ++ SetupBasics b) =
      [(0x0B, 0x05), (0x09, 0x00), (0x0C, 0x01), (0x0F, 0x00), (0x0A, toU8 b),
        (0x0B, 0x05), (0x09, 0x00), (0x0C, 0x01), (0x0F, 0x00), (0x0A, toU8 b)] := by
  rw [transactions, sampledBits, Receiver.idle, run_append, run_SetupBasics, run_SetupBasics]
  simp only [List.nil_append, List.cons_append, List.map_cons, List.map_nil, decodeFrame_msbBits]
  rw [Nat.mod_eq_of_lt (toU8_lt b)]

theorem display_SetupBasics (rf : RegFile) (b : Int) (a : Nat) :
    display rf (SetupBasics b) a =
      if a = 0x0A then toU8 b else if a = 0x0F then 0x00 else if a = 0x0C then 0x01
      else if a = 0x09 then 0x00 else if a = 0x0B then 0x05 else rf a := by
  simp only [display, transactions_SetupBasics, List.foldl_cons, List.foldl_nil, applyTx]

/-- C12: with the display modelled as a register file updated by each transaction,
applying `SetupBasics b` twice in succession to any register file gives the same register
file as applying it once, and the resulting contents of the configuration registers
0x09, 0x0A, 0x0B, 0x0C, 0x0F depend only on `b`, not on the prior contents. -/
theorem SetupBasics_idempotent (rf : RegFile) (b : Int) :
    display rf (SetupBasics b ++ SetupBasics b) = display rf (SetupBasics b) ∧
      display (display rf (SetupBasics b)) (SetupBasics b) = display rf (SetupBasics b) ∧
      display rf (SetupBasics b) 0x09 = 0x00 ∧
      display rf (SetupBasics b) 0x0A = toU8 b ∧
      display rf (SetupBasics b) 0x0B = 0x05 ∧
      display rf (SetupBasics b) 0x0C = 0x01 ∧
      display rf (SetupBasics b) 0x0F = 0x00 ∧
      (∀ rf2 : RegFile, ∀ a, a = 0x09 ∨ a = 0x0A ∨ a = 0x0B ∨ a = 0x0C ∨ a = 0x0F →
        display rf2 (SetupBasics b) a = display rf (SetupBasics b) a) := by
  refine ⟨?_, ?_, ?_, ?_, ?_, ?_, ?_, ?_⟩
  · funext a
    rw [display_SetupBasics]
    simp only [display, transactions_SetupBasics_twice, List.foldl_cons, List.foldl_nil, applyTx]
    split_ifs <;> rfl
  · funext a
    rw [display_SetupBasics, display_SetupBasics]
    split_ifs <;> rfl
  · rw [display_SetupBasics]; rfl
  · rw [display_SetupBasics]; rfl
  · rw [display_SetupBasics]; rfl
  · rw [display_SetupBasics]; rfl
  · rw [display_SetupBasics]; rfl
  · intro rf2 a ha
    rw [display_SetupBasics, display_SetupBasics]
    rcases ha with rfl | rfl | rfl | rfl | rfl <;> rfl

theorem nibble_lo_lt (x : Nat) : x &&& 0x0F < 16 := by
  have h := @Nat.and_le_right x 0x0F
  omega

theorem nibble_hi_lt (x : Nat) : (x &&& 0xF0) >>> 4 < 16 := by
  have h := @Nat.and_le_right x 0xF0
  rw [Nat.shiftRight_eq_div_pow]
  omega

theorem byte_masks (x : Nat) (h : x < 256) :
    x &&& 0x0F = x % 16 ∧ (x &&& 0xF0) >>> 4 = x / 16 := by
  interval_cases x <;> exact ⟨rfl, rfl⟩

theorem int_to_bcd_lt (v : Int) : int_to_bcd v < 256 := toU8_lt _

theorem digit_nibbles (tm : Tm) :
    digit tm =
      [int_to_bcd tm.tm_sec % 16, int_to_bcd tm.tm_sec / 16,
        int_to_bcd tm.tm_min % 16, int_to_bcd tm.tm_min / 16,
        int_to_bcd tm.tm_hour % 16, int_to_bcd tm.tm_hour / 16] := by
  simp only [digit, (byte_masks _ (int_to_bcd_lt tm.tm_sec)).1,
    (byte_masks _ (int_to_bcd_lt tm.tm_sec)).2, (byte_masks _ (int_to_bcd_lt tm.tm_min)).1,
    (byte_masks _ (int_to_bcd_lt tm.tm_min)).2, (byte_masks _ (int_to_bcd_lt tm.tm_hour)).1,
    (byte_masks _ (int_to_bcd_lt tm.tm_hour)).2]

theorem digit_shape (tm : Tm) :
    ∃ d0 d1 d2 d3 d4 d5 : Nat, digit tm = [d0, d1, d2, d3, d4, d5] ∧
      d0 < 16 ∧ d1 < 16 ∧ d2 < 16 ∧ d3 < 16 ∧ d4 < 16 ∧ d5 < 16 :=
  ⟨_, _, _, _, _, _, rfl, nibble_lo_lt _, nibble_hi_lt _, nibble_lo_lt _, nibble_hi_lt _,
    nibble_lo_lt _, nibble_hi_lt _⟩

theorem run_render (d0 d1 d2 d3 d4 d5 : Nat) (h0 : d0 < 256) (h1 : d1 < 256) (h2 : d2 < 256)
    (h3 : d3 < 256) (h4 : d4 < 256) (h5 : d5 < 256) (k d : Bool) (bs : List Bool)
    (fr : List (List Bool)) :
    Receiver.run ⟨HIGH, k, d, bs, fr⟩ (render [d0, d1, d2, d3, d4, d5]) =
      ⟨HIGH, HIGH, d0.testBit 0, [],
        fr ++ [msbBits 6 8 ++ msbBits d5 8, msbBits 5 8 ++ msbBits d4 8,
          msbBits 4 8 ++ msbBits d3 8, msbBits 3 8 ++ msbBits d2 8,
          msbBits 2 8 ++ msbBits d1 8, msbBits 1 8 ++ msbBits d0 8]⟩ := by
  rw [render_eq d0 d1 d2 d3 d4 d5 h0 h1 h2 h3 h4 h5]
  simp only [run_append, run_Write, List.append_assoc, List.singleton_append, List.cons_append,
    List.nil_append]

theorem run_sampler (s : Receiver) (old : Nat) (clock : List Tm) :
    Receiver.run s (sampler old clock).1 = s := by
  induction clock with
  | nil => rfl
  | cons tm rest ih =>
    unfold sampler
    split_ifs
    · rfl
    · simp only [run_cons, Receiver.step]
      exact ih

theorem sampler_no_pin_write (old : Nat) (clock : List Tm) (p : Pin) (l : Bool) :
    Event.gpio_write p l ∉ (sampler old clock).1 := by
  induction clock with
  | nil => simp [sampler]
  | cons tm rest ih =>
    unfold sampler
    split_ifs
    · simp
    · simpa using ih

theorem loopBody_some (b : Int) (old : Nat) (clock : List Tm) (tm : Tm) (rest : List Tm)
    (h : (sampler old clock).2 = some (tm, rest)) :
    loopBody b old clock =
      (SetupBasics b ++ (sampler old clock).1 ++ render (digit tm), some (toU8 tm.tm_sec, rest)) := by
  simp [loopBody, h]

theorem loopBody_none (b : Int) (old : Nat) (clock : List Tm)
    (h : (sampler old clock).2 = none) :
    loopBody b old clock = (SetupBasics b ++ (sampler old clock).1, none) := by
  simp [loopBody, h]

/-- C13: for every brightness and every iteration of the main loop in which the sampler
obtains a sample, the iteration issues exactly 11 register-write transactions: first the
five configuration writes of `SetupBasics b`, before the sampler reads the clock, then,
after the sample is obtained, the six digit writes for that sample (addresses 6..1
carrying the BCD nibbles of its hours, minutes and seconds, its decimal digits when the
sample is a valid time); the sampler itself writes no pin, and the next iteration starts
after these eleven. -/
theorem loop_iteration_transactions (b : Int) (n old : Nat) (clock : List Tm) (tm : Tm)
    (rest : List Tm) (h : (sampler old clock).2 = some (tm, rest)) :
    (loopBody b old clock).1 = SetupBasics b ++ (sampler old clock).1 ++ render (digit tm) ∧
      (∃ t, (sampler old clock).1 = Event.time_read :: t) ∧
      (∀ p l, Event.gpio_write p l ∉ (sampler old clock).1) ∧
      mainLoop b (n + 1) old clock =
        (loopBody b old clock).1 ++ mainLoop b n (toU8 tm.tm_sec) rest ∧
      (∃ d0 d1 d2 d3 d4 d5 : Nat, digit tm = [d0, d1, d2, d3, d4, d5] ∧
        transactions (loopBody b old clock).1 =
          [(0x0B, 0x05), (0x09, 0x00), (0x0C, 0x01), (0x0F, 0x00), (0x0A, toU8 b),
            (6, d5), (5, d4), (4, d3), (3, d2), (2, d1), (1, d0)]) ∧
      (transactions (loopBody b old clock).1).length = 11 ∧
      transactions (loopBody b old clock).1 =
        [(0x0B, 0x05), (0x09, 0x00), (0x0C, 0x01), (0x0F, 0x00), (0x0A, toU8 b),
          (6, int_to_bcd tm.tm_hour / 16), (5, int_to_bcd tm.tm_hour % 16),
          (4, int_to_bcd tm.tm_min / 16), (3, int_to_bcd tm.tm_min % 16),
          (2, int_to_bcd tm.tm_sec / 16), (1, int_to_bcd tm.tm_sec % 16)] ∧
      (∀ hr mi se : Nat, tm = ⟨se, mi, hr⟩ → hr ≤ 23 → mi ≤ 59 → se ≤ 59 →
        transactions (loopBody b old clock).1 =
          [(0x0B, 0x05), (0x09, 0x00), (0x0C, 0x01), (0x0F, 0x00), (0x0A, toU8 b),
            (6, hr / 10), (5, hr % 10), (4, mi / 10), (3, mi % 10), (2, se / 10),
            (1, se % 10)]) := by
  have hl := loopBody_some b old clock tm rest h
  obtain ⟨d0, d1, d2, d3, d4, d5, hd, l0, l1, l2, l3, l4, l5⟩ := digit_shape tm
  have ht : transactions (loopBody b old clock).1 =
      [(0x0B, 0x05), (0x09, 0x00), (0x0C, 0x01), (0x0F, 0x00), (0x0A, toU8 b),
        (6, d5), (5, d4), (4, d3), (3, d2), (2, d1), (1, d0)] := by
    rw [hl, hd, transactions, sampledBits, Receiver.idle, run_append, run_append,
      run_SetupBasics, run_sampler,
      run_render d0 d1 d2 d3 d4 d5 (by omega) (by omega) (by omega) (by omega) (by omega)
        (by omega)]
    simp only [List.nil_append, List.cons_append, List.map_cons, List.map_nil]
    rw [decodeFrame_bytes 0x0A (toU8 b) (by omega) (toU8_lt b),
      decodeFrame_bytes 6 d5 (by omega) (by omega), decodeFrame_bytes 5 d4 (by omega) (by omega),
      decodeFrame_bytes 4 d3 (by omega) (by omega), decodeFrame_bytes 3 d2 (by omega) (by omega),
      decodeFrame_bytes 2 d1 (by omega) (by omega), decodeFrame_bytes 1 d0 (by omega) (by omega)]
    simp only [decodeFrame_msbBits]
  refine ⟨by rw [hl], sampler_some_events old clock (tm, rest) h,
    fun p l => sampler_no_pin_write old clock p l, ?_, ⟨d0, d1, d2, d3, d4, d5, hd, ht⟩, ?_,
    ?_, ?_⟩
  · simp [mainLoop, hl]
  · rw [ht]; rfl
  · have hn := digit_nibbles tm
    rw [hd] at hn
    simp only [List.cons.injEq, and_true] at hn
    obtain ⟨e0, e1, e2, e3, e4, e5⟩ := hn
    rw [ht, e0, e1, e2, e3, e4, e5]
  · intro hr mi se htm hhr hmi hse
    have hn := digit_eq hr mi se (by omega) (by omega) (by omega)
    rw [← htm, hd] at hn
    simp only [List.cons.injEq, and_true] at hn
    obtain ⟨e0, e1, e2, e3, e4, e5⟩ := hn
    rw [ht, e0, e1, e2, e3, e4, e5]

theorem loop_iteration_transactions_witness :
    (transactions (loopBody 8 0xFF [⟨58, 59, 23⟩]).1).length = 11 ∧
      transactions (loopBody 8 0xFF [⟨58, 59, 23⟩]).1 =
        [(0x0B, 0x05), (0x09, 0x00), (0x0C, 0x01), (0x0F, 0x00), (0x0A, 8),
          (6, 2), (5, 3), (4, 5), (3, 9), (2, 5), (1, 8)] :=
  ⟨(loop_iteration_transactions 8 0 0xFF [⟨58, 59, 23⟩] ⟨58, 59, 23⟩ [] (by decide)).2.2.2.2.2.1,
    (loop_iteration_transactions 8 0 0xFF [⟨58, 59, 23⟩] ⟨58, 59, 23⟩ [] (by decide)).2.2.2.2.2.2.2
      23 59 58 rfl (by decide) (by decide) (by decide)⟩


theorem step_frames (s : Receiver) (e : Event) :
    ∃ ex, (Receiver.step s e).frames = s.frames ++ ex := by
  cases e with
  | gpio_write p l =>
    cases p
    · exact ⟨[], by simp [Receiver.step]⟩
    · simp only [Receiver.step]
      split_ifs
      · exact ⟨[], by simp⟩
      · exact ⟨[s.bits], rfl⟩
      · exact ⟨[], by simp⟩
    · simp only [Receiver.step]
      split_ifs
      · exact ⟨[], by simp⟩
      · exact ⟨[], by simp⟩
  | gpio_fsel p => exact ⟨[], by simp [Receiver.step]⟩
  | delay ms => exact ⟨[], by simp [Receiver.step]⟩
  | time_read => exact ⟨[], by simp [Receiver.step]⟩
  | gettimeofday => exact ⟨[], by simp [Receiver.step]⟩
  | printf msg => exact ⟨[], by simp [Receiver.step]⟩

theorem run_frames (tr : List Event) (s : Receiver) :
    ∃ ex, (Receiver.run s tr).frames = s.frames ++ ex := by
  induction tr generalizing s with
  | nil => exact ⟨[], by simp [run_nil]⟩
  | cons e tr ih =>
    obtain ⟨ex1, h1⟩ := step_frames s e
    obtain ⟨ex2, h2⟩ := ih (Receiver.step s e)
    exact ⟨ex1 ++ ex2, by rw [run_cons, h2, h1, List.append_assoc]⟩

theorem foldl_applyTx_of_not_mem (txs : List (Nat × Nat)) (rf : RegFile) (a : Nat)
    (h : ∀ t ∈ txs, t.1 ≠ a) : txs.foldl applyTx rf a = rf a := by
  induction txs generalizing rf with
  | nil => rfl
  | cons t txs ih =>
    rw [List.foldl_cons, ih _ (fun u hu => h u (List.mem_cons_of_mem t hu))]
    have ht : a ≠ t.1 := fun c => h t (List.mem_cons_self t txs) c.symm
    simp [applyTx, ht]

theorem transactions_render_digit (tm : Tm) :
    ∃ d0 d1 d2 d3 d4 d5 : Nat, digit tm = [d0, d1, d2, d3, d4, d5] ∧
      transactions (render (digit tm)) =
        [(6, d5), (5, d4), (4, d3), (3, d2), (2, d1), (1, d0)] := by
  obtain ⟨d0, d1, d2, d3, d4, d5, hd, l0, l1, l2, l3, l4, l5⟩ := digit_shape tm
  refine ⟨d0, d1, d2, d3, d4, d5, hd, ?_⟩
  rw [hd]
  exact transactions_render _ _ _ _ _ _ (by omega) (by omega) (by omega) (by omega) (by omega)
    (by omega)

theorem run_loopBody_some (b : Int) (old : Nat) (clock : List Tm) (tm : Tm) (rest : List Tm)
    (h : (sampler old clock).2 = some (tm, rest)) (k d : Bool) (bs : List Bool)
    (fr : List (List Bool)) :
    ∃ d2 fl, Receiver.run ⟨HIGH, k, d, bs, fr⟩ (loopBody b old clock).1 =
        ⟨HIGH, HIGH, d2, [], fr ++ fl⟩ ∧
      ∀ f ∈ fl, (decodeFrame f).1 ≠ 7 ∧ (decodeFrame f).1 ≠ 8 := by
  have hl := loopBody_some b old clock tm rest h
  obtain ⟨d0, d1, d2, d3, d4, d5, hd, l0, l1, l2, l3, l4, l5⟩ := digit_shape tm
  refine ⟨d0.testBit 0,
    [msbBits 0x0B 8 ++ msbBits 0x05 8, msbBits 0x09 8 ++ msbBits 0x00 8,
      msbBits 0x0C 8 ++ msbBits 0x01 8, msbBits 0x0F 8 ++ msbBits 0x00 8,
      msbBits 0x0A 8 ++ msbBits (toU8 b) 8] ++
    [msbBits 6 8 ++ msbBits d5 8, msbBits 5 8 ++ msbBits d4 8,
      msbBits 4 8 ++ msbBits d3 8, msbBits 3 8 ++ msbBits d2 8,
      msbBits 2 8 ++ msbBits d1 8, msbBits 1 8 ++ msbBits d0 8], ?_, ?_⟩
  · rw [hl, hd, run_append, run_append, run_SetupBasics, run_sampler,
      run_render d0 d1 d2 d3 d4 d5 (by omega) (by omega) (by omega) (by omega) (by omega)
        (by omega), List.append_assoc]
  · intro f hf
    simp only [List.cons_append, List.nil_append, List.mem_cons, List.mem_singleton,
      List.not_mem_nil, or_false] at hf
    rcases hf with rfl | rfl | rfl | rfl | rfl | rfl | rfl | rfl | rfl | rfl | rfl <;>
      simp [decodeFrame_msbBits]

theorem run_loopBody_none (b : Int) (old : Nat) (clock : List Tm)
    (h : (sampler old clock).2 = none) (k d : Bool) (bs : List Bool) (fr : List (List Bool)) :
    ∃ d2 fl, Receiver.run ⟨HIGH, k, d, bs, fr⟩ (loopBody b old clock).1 =
        ⟨HIGH, HIGH, d2, [], fr ++ fl⟩ ∧
      ∀ f ∈ fl, (decodeFrame f).1 ≠ 7 ∧ (decodeFrame f).1 ≠ 8 := by
  have hl := loopBody_none b old clock h
  refine ⟨(toU8 b).testBit 0,
    [msbBits 0x0B 8 ++ msbBits 0x05 8, msbBits 0x09 8 ++ msbBits 0x00 8,
      msbBits 0x0C 8 ++ msbBits 0x01 8, msbBits 0x0F 8 ++ msbBits 0x00 8,
      msbBits 0x0A 8 ++ msbBits (toU8 b) 8], ?_, ?_⟩
  · rw [hl, run_append, run_SetupBasics, run_sampler]
  · intro f hf
    simp only [List.mem_cons, List.mem_singleton, List.not_mem_nil, or_false] at hf
    rcases hf with rfl | rfl | rfl | rfl | rfl <;> simp [decodeFrame_msbBits]

theorem run_mainLoop (b : Int) (n : Nat) :
    ∀ (old : Nat) (clock : List Tm) (k d : Bool) (bs : List Bool) (fr : List (List Bool)),
      ∃ k2 d2 bs2 ex, Receiver.run ⟨HIGH, k, d, bs, fr⟩ (mainLoop b n old clock) =
          ⟨HIGH, k2, d2, bs2, fr ++ ex⟩ ∧
        ∀ f ∈ ex, (decodeFrame f).1 ≠ 7 ∧ (decodeFrame f).1 ≠ 8 := by
  induction n with
  | zero =>
    intro old clock k d bs fr
    exact ⟨k, d, bs, [], by simp [mainLoop, run_nil], by simp⟩
  | succ n ih =>
    intro old clock k d bs fr
    cases h : (sampler old clock).2 with
    | none =>
      obtain ⟨d2, fl, hrun, hfl⟩ := run_loopBody_none b old clock h k d bs fr
      have hm : mainLoop b (n + 1) old clock = (loopBody b old clock).1 := by
        simp [mainLoop, loopBody_none b old clock h]
      exact ⟨HIGH, d2, [], fl, by rw [hm, hrun], hfl⟩
    | some r =>
      obtain ⟨tm, rest⟩ := r
      obtain ⟨d2, fl, hrun, hfl⟩ := run_loopBody_some b old clock tm rest h k d bs fr
      obtain ⟨k3, d3, bs3, ex, hex, hall⟩ := ih (toU8 tm.tm_sec) rest HIGH d2 [] (fr ++ fl)
      have hm : mainLoop b (n + 1) old clock =
          (loopBody b old clock).1 ++ mainLoop b n (toU8 tm.tm_sec) rest := by
        simp [mainLoop, loopBody_some b old clock tm rest h]
      refine ⟨k3, d3, bs3, fl ++ ex, ?_, ?_⟩
      · rw [hm, run_append, hrun, hex, List.append_assoc]
      · intro f hf
        rcases List.mem_append.1 hf with hf | hf
        · exact hfl f hf
        · exact hall f hf

theorem transactions_startup (b : Int) :
    transactions (Event.gettimeofday :: startup b) =
      [(0x0B, 0x05), (0x09, 0x00), (0x0C, 0x01), (0x0F, 0x00), (0x0A, toU8 b),
        (1, 0), (2, 0), (3, 0), (4, 0), (5, 0), (6, 0), (7, 0), (8, 0)] := by
  simp only [transactions, sampledBits, run_startup, List.map_cons, List.map_nil]
  rw [decodeFrame_bytes 0x0A (toU8 b) (by omega) (toU8_lt b)]
  simp only [decodeFrame_msbBits]

theorem display_after_startup (rf : RegFile) (argc n : Int) (clock : List Tm)
    (p q : List Event)
    (h : (main argc n true clock).1 =
      (Event.gettimeofday :: startup (iBrightness argc n) ++ p) ++ q) (a : Nat)
    (ha : a = 7 ∨ a = 8) :
    display rf (Event.gettimeofday :: startup (iBrightness argc n) ++ p) a = 0 := by
  have hS := run_startup (iBrightness argc n)
  obtain ⟨k2, d2, bs2, ex, hex, hall⟩ := run_mainLoop (iBrightness argc n) (clock.length + 1)
    0xFF clock HIGH false [] (Receiver.run Receiver.idle
      (Event.gettimeofday :: startup (iBrightness argc n))).frames
  obtain ⟨exP, hP⟩ := run_frames p (Receiver.run Receiver.idle
    (Event.gettimeofday :: startup (iBrightness argc n)))
  obtain ⟨exQ, hQ⟩ := run_frames q (Receiver.run Receiver.idle
    (Event.gettimeofday :: startup (iBrightness argc n) ++ p))
  have hmain : (main argc n true clock).1 =
      (Event.gettimeofday :: startup (iBrightness argc n)) ++
        mainLoop (iBrightness argc n) (clock.length + 1) 0xFF clock := by
    simp [main]
  have hfull : (Receiver.run Receiver.idle (main argc n true clock).1).frames =
      (Receiver.run Receiver.idle (Event.gettimeofday :: startup (iBrightness argc n))).frames
        ++ ex := by
    rw [hmain, run_append]
    have hst : Receiver.run Receiver.idle (Event.gettimeofday :: startup (iBrightness argc n)) =
        ⟨HIGH, HIGH, false, [], (Receiver.run Receiver.idle
          (Event.gettimeofday :: startup (iBrightness argc n))).frames⟩ := by
      rw [hS]
    rw [hst, hex]
  have hfull2 : (Receiver.run Receiver.idle (main argc n true clock).1).frames =
      (Receiver.run Receiver.idle (Event.gettimeofday :: startup (iBrightness argc n))).frames
        ++ (exP ++ exQ) := by
    rw [h, run_append, hQ]
    have hsp : Receiver.run Receiver.idle
        (Event.gettimeofday :: startup (iBrightness argc n) ++ p) =
        Receiver.run (Receiver.run Receiver.idle
          (Event.gettimeofday :: startup (iBrightness argc n))) p := by
      rw [← run_append]
    rw [hsp, hP, List.append_assoc]
  have hex2 : ex = exP ++ exQ := List.append_cancel_left (hfull.symm.trans hfull2)
  have hallP : ∀ t ∈ exP.map decodeFrame, t.1 ≠ a := by
    intro t ht
    obtain ⟨f, hf, rfl⟩ := List.mem_map.1 ht
    have hok := hall f (by rw [hex2]; exact List.mem_append_left exQ hf)
    rcases ha with rfl | rfl
    · exact hok.1
    · exact hok.2
  have hd : display rf (Event.gettimeofday :: startup (iBrightness argc n) ++ p) =
      (exP.map decodeFrame).foldl applyTx
        ((transactions (Event.gettimeofday :: startup (iBrightness argc n))).foldl applyTx rf) := by
    have hsp : Receiver.run Receiver.idle
        (Event.gettimeofday :: startup (iBrightness argc n) ++ p) =
        Receiver.run (Receiver.run Receiver.idle
          (Event.gettimeofday :: startup (iBrightness argc n))) p := by
      rw [← run_append]
    simp only [display, transactions, sampledBits]
    rw [hsp, hP, List.map_append, List.foldl_append]
  rw [hd, foldl_applyTx_of_not_mem _ _ a hallP, transactions_startup]
  rcases ha with rfl | rfl <;> simp [applyTx]

/-- C14: with the display modelled as a register file, `SetupBasics` writes only
addresses 0x09, 0x0A, 0x0B, 0x0C, 0x0F and leaves every other register (in particular
the digit registers 0x01..0x08) unchanged; the render step writes only addresses
0x01..0x06 and leaves every other register (the configuration registers, 0x07 and 0x08)
unchanged; hence at every point of a run after startup registers 0x07 and 0x08 hold 0. -/
theorem frame_effects (rf : RegFile) (b : Int) (tm : Tm) (argc n : Int) (clock : List Tm) :
    (∀ t ∈ transactions (SetupBasics b),
        t.1 = 0x09 ∨ t.1 = 0x0A ∨ t.1 = 0x0B ∨ t.1 = 0x0C ∨ t.1 = 0x0F) ∧
      (∀ a, a ≠ 0x09 → a ≠ 0x0A → a ≠ 0x0B → a ≠ 0x0C → a ≠ 0x0F →
        display rf (SetupBasics b) a = rf a) ∧
      (∀ a, 1 ≤ a → a ≤ 8 → display rf (SetupBasics b) a = rf a) ∧
      (∀ t ∈ transactions (render (digit tm)), 1 ≤ t.1 ∧ t.1 ≤ 6) ∧
      (∀ a, a < 1 ∨ 6 < a → display rf (render (digit tm)) a = rf a) ∧
      (∀ p q, (main argc n true clock).1 =
          (Event.gettimeofday :: startup (iBrightness argc n) ++ p) ++ q →
        display rf (Event.gettimeofday :: startup (iBrightness argc n) ++ p) 0x07 = 0 ∧
        display rf (Event.gettimeofday :: startup (iBrightness argc n) ++ p) 0x08 = 0) := by
  obtain ⟨d0, d1, d2, d3, d4, d5, hd, hr⟩ := transactions_render_digit tm
  have hcfg : ∀ a, a ≠ 0x09 → a ≠ 0x0A → a ≠ 0x0B → a ≠ 0x0C → a ≠ 0x0F →
      display rf (SetupBasics b) a = rf a := by
    intro a h9 hA hB hC hF
    rw [display_SetupBasics]
    simp [h9, hA, hB, hC, hF]
  refine ⟨?_, hcfg, ?_, ?_, ?_, ?_⟩
  · intro t ht
    rw [transactions_SetupBasics] at ht
    simp only [List.mem_cons, List.mem_singleton, List.not_mem_nil, or_false] at ht
    rcases ht with rfl | rfl | rfl | rfl | rfl <;> simp
  · intro a h1 h8
    exact hcfg a (by omega) (by omega) (by omega) (by omega) (by omega)
  · intro t ht
    rw [hr] at ht
    simp only [List.mem_cons, List.mem_singleton, List.not_mem_nil, or_false] at ht
    rcases ht with rfl | rfl | rfl | rfl | rfl | rfl <;> simp
  · intro a ha
    rw [display, hr]
    apply foldl_applyTx_of_not_mem
    intro t ht
    simp only [List.mem_cons, List.mem_singleton, List.not_mem_nil, or_false] at ht
    rcases ht with rfl | rfl | rfl | rfl | rfl | rfl <;> simp <;> omega
  · intro p q h
    exact ⟨display_after_startup rf argc n clock p q h 7 (Or.inl rfl),
      display_after_startup rf argc n clock p q h 8 (Or.inr rfl)⟩

theorem dataWritesOk_clockBit (b : Bool) (s : Receiver) (rest : List Event) (h : s.cs = LOW) :
    dataWritesOk s (clockBit b ++ rest) =
      dataWritesOk ⟨LOW, HIGH, b, s.bits ++ [b], s.frames⟩ rest := by
  simp [dataWritesOk, clockBit, Receiver.step, h, HIGH, LOW]

theorem dataWritesOk_loop (data i : Nat) (s : Receiver) (rest : List Event) (h : s.cs = LOW) :
    dataWritesOk s (SendByte.loop data i ++ rest) =
      dataWritesOk (Receiver.run s (SendByte.loop data i)) rest := by
  induction i generalizing s with
  | zero => rfl
  | succ i ih =>
    rw [SendByte_loop_succ, List.append_assoc, dataWritesOk_clockBit _ s _ h, run_append,
      run_clockBit _ _ h, ih _ rfl]

theorem dataWritesOk_cs (s : Receiver) (l : Bool) (tr : List Event) :
    dataWritesOk s (Event.gpio_write Pin.CS l :: tr) =
      dataWritesOk (Receiver.step s (Event.gpio_write Pin.CS l)) tr := rfl

theorem dataWritesOk_tail (s : Receiver) (e : Event) (tr : List Event)
    (h : dataWritesOk s (e :: tr) = true) : dataWritesOk (Receiver.step s e) tr = true := by
  unfold dataWritesOk at h
  exact (Bool.and_eq_true _ _ ▸ h).2

theorem dataWritesOk_Write (reg col : Nat) (k d : Bool) (bs : List Bool)
    (fr : List (List Bool)) (rest : List Event) :
    dataWritesOk ⟨HIGH, k, d, bs, fr⟩ (Write reg col ++ rest) =
      dataWritesOk ⟨HIGH, HIGH, col.testBit 0, [], fr ++ [msbBits reg 8 ++ msbBits col 8]⟩
        rest := by
  have h0 : Receiver.step ⟨HIGH, k, d, bs, fr⟩ (Event.gpio_write Pin.CS LOW) =
      ⟨LOW, k, d, [], fr⟩ := by
    simp [Receiver.step, HIGH, LOW]
  have h1 : Receiver.step
      ⟨LOW, HIGH, col.testBit 0, ([] ++ msbBits reg 8) ++ msbBits col 8, fr⟩
      (Event.gpio_write Pin.CS HIGH) =
      ⟨HIGH, HIGH, col.testBit 0, [], fr ++ [msbBits reg 8 ++ msbBits col 8]⟩ := by
    simp [Receiver.step, HIGH, LOW]
  unfold Write SendByte
  rw [List.append_assoc, List.append_assoc, List.append_assoc, List.singleton_append,
    dataWritesOk_cs, h0, dataWritesOk_loop reg 8 _ _ rfl, run_SendByte_loop reg 7 _ rfl,
    dataWritesOk_loop col 8 _ _ rfl, run_SendByte_loop col 7 _ rfl, List.singleton_append,
    dataWritesOk_cs, h1]

theorem dataWritesOk_writes (l : List (Nat × Nat)) (k d : Bool) (bs : List Bool)
    (fr : List (List Bool)) : dataWritesOk ⟨HIGH, k, d, bs, fr⟩ (writes l) = true := by
  induction l generalizing k d bs fr with
  | nil => rfl
  | cons p l ih =>
    have hw : writes (p :: l) = Write p.1 p.2 ++ writes l := by
      simp [writes]
    rw [hw, dataWritesOk_Write, ih]

theorem dataWritesOk_split (tr : List Event) (s : Receiver) (h : dataWritesOk s tr = true)
    (a : List Event) (lvl : Bool) (rest : List Event)
    (htr : tr = a ++ Event.gpio_write Pin.DataIn lvl :: rest) :
    (Receiver.run s a).cs = LOW ∧ (Receiver.run s a).clk = LOW ∧
      ∃ r, rest = Event.gpio_write Pin.Clock HIGH :: r := by
  induction a generalizing s tr with
  | nil =>
    subst htr
    simp only [List.nil_append, dataWritesOk, Bool.and_eq_true, decide_eq_true_eq] at h
    obtain ⟨⟨⟨h1, h2⟩, h3⟩, _⟩ := h
    refine ⟨h1, h2, ?_⟩
    cases rest with
    | nil => simp at h3
    | cons e r =>
      simp only [List.head?_cons, Option.some.injEq] at h3
      exact ⟨r, by rw [h3]⟩
  | cons e a ih =>
    subst htr
    rw [run_cons]
    exact ih _ (Receiver.step s e) (dataWritesOk_tail s e _ h) rfl

theorem csWrites_append (a b : List Event) : csWrites (a ++ b) = csWrites a ++ csWrites b := by
  simp [csWrites, List.filterMap_append]

theorem csWrites_loop (data i : Nat) : csWrites (SendByte.loop data i) = [] := by
  induction i with
  | zero => rfl
  | succ i ih =>
    rw [SendByte_loop_succ, csWrites_append, ih]
    rfl

theorem csWrites_Write (reg col : Nat) : csWrites (Write reg col) = [LOW, HIGH] := by
  unfold Write SendByte
  rw [csWrites_append, csWrites_append, csWrites_append, csWrites_loop, csWrites_loop]
  rfl

theorem writes_cons (p : Nat × Nat) (l : List (Nat × Nat)) :
    writes (p :: l) = Write p.1 p.2 ++ writes l := by
  simp [writes]

theorem csWrites_writes (l : List (Nat × Nat)) :
    csWrites (writes l) = l.flatMap (fun _ => [LOW, HIGH]) := by
  induction l with
  | nil => rfl
  | cons p l ih => rw [writes_cons, csWrites_append, csWrites_Write, ih, List.flatMap_cons]

theorem run_writes (l : List (Nat × Nat)) (d : Bool) (fr : List (List Bool)) :
    ∃ d2, Receiver.run ⟨HIGH, HIGH, d, [], fr⟩ (writes l) =
      ⟨HIGH, HIGH, d2, [], fr ++ l.map (fun p => msbBits p.1 8 ++ msbBits p.2 8)⟩ := by
  induction l generalizing d fr with
  | nil => exact ⟨d, by simp [writes, run_nil]⟩
  | cons p l ih =>
    obtain ⟨d2, h2⟩ := ih (p.2.testBit 0) (fr ++ [msbBits p.1 8 ++ msbBits p.2 8])
    exact ⟨d2, by rw [writes_cons, run_append, run_Write, h2]; simp⟩

/-- C17: in the pin-write trace of any sequence of `Write` calls started from the idle
state set up in `main` (data, clock and chip-select HIGH): every write to the data line
finds chip-select LOW and the clock LOW and is immediately followed by the clock going
HIGH; the chip-select writes alternate LOW, HIGH, LOW, HIGH, ...; every chip-select
window holds exactly 16 rising clock edges; and after every transaction clock and
chip-select are HIGH again. -/
theorem writes_line_discipline (l : List (Nat × Nat)) :
    (∀ a lvl rest, writes l = a ++ Event.gpio_write Pin.DataIn lvl :: rest →
        (Receiver.run Receiver.idle a).cs = LOW ∧ (Receiver.run Receiver.idle a).clk = LOW ∧
          ∃ r, rest = Event.gpio_write Pin.Clock HIGH :: r) ∧
      csWrites (writes l) = l.flatMap (fun _ => [LOW, HIGH]) ∧
      sampledBits (writes l) = l.map (fun p => msbBits p.1 8 ++ msbBits p.2 8) ∧
      (sampledBits (writes l)).length = l.length ∧
      (∀ w ∈ sampledBits (writes l), w.length = 16) ∧
      (∀ l1 l2, l = l1 ++ l2 →
        writes l = writes l1 ++ writes l2 ∧
        (Receiver.run Receiver.idle (writes l1)).cs = HIGH ∧
        (Receiver.run Receiver.idle (writes l1)).clk = HIGH ∧
        (Receiver.run Receiver.idle (writes l1)).bits = []) := by
  have hs : sampledBits (writes l) = l.map (fun p => msbBits p.1 8 ++ msbBits p.2 8) := by
    obtain ⟨d2, h2⟩ := run_writes l HIGH []
    rw [sampledBits, Receiver.idle, h2]
    rfl
  refine ⟨?_, csWrites_writes l, hs, ?_, ?_, ?_⟩
  · intro a lvl rest h
    exact dataWritesOk_split (writes l) Receiver.idle (dataWritesOk_writes l HIGH HIGH [] []) a
      lvl rest h
  · rw [hs, List.length_map]
  · intro w hw
    rw [hs] at hw
    obtain ⟨p, _, rfl⟩ := List.mem_map.1 hw
    simp [msbBits_length]
  · intro l1 l2 h12
    obtain ⟨d2, h2⟩ := run_writes l1 HIGH []
    refine ⟨by simp [h12, writes], ?_, ?_, ?_⟩ <;> rw [Receiver.idle, h2]

theorem transactions_through_first_render (b : Int) (d0 d1 d2 d3 d4 d5 : Nat) (h0 : d0 < 256)
    (h1 : d1 < 256) (h2 : d2 < 256) (h3 : d3 < 256) (h4 : d4 < 256) (h5 : d5 < 256) :
    transactions (Event.gettimeofday :: startup b ++
        (SetupBasics b ++ [Event.time_read] ++ render [d0, d1, d2, d3, d4, d5])) =
      [(0x0B, 0x05), (0x09, 0x00), (0x0C, 0x01), (0x0F, 0x00), (0x0A, toU8 b),
        (1, 0), (2, 0), (3, 0), (4, 0), (5, 0), (6, 0), (7, 0), (8, 0),
        (0x0B, 0x05), (0x09, 0x00), (0x0C, 0x01), (0x0F, 0x00), (0x0A, toU8 b),
        (6, d5), (5, d4), (4, d3), (3, d2), (2, d1), (1, d0)] := by
  have ht : ∀ s : Receiver, Receiver.run s [Event.time_read] = s := fun _ => rfl
  rw [transactions, sampledBits, run_append, run_startup, run_append, run_append,
    run_SetupBasics, ht, run_render d0 d1 d2 d3 d4 d5 h0 h1 h2 h3 h4 h5]
  simp only [List.nil_append, List.cons_append, List.map_cons, List.map_nil]
  rw [decodeFrame_bytes 0x0A (toU8 b) (by omega) (toU8_lt b),
    decodeFrame_bytes 6 d5 (by omega) h5, decodeFrame_bytes 5 d4 (by omega) h4,
    decodeFrame_bytes 4 d3 (by omega) h3, decodeFrame_bytes 3 d2 (by omega) h2,
    decodeFrame_bytes 2 d1 (by omega) h1, decodeFrame_bytes 1 d0 (by omega) h0]
  simp only [decodeFrame_msbBits]

/-- C15: `uOldSeconds` starts at 0xFF, which differs from every seconds value in 0..60,
so in the first iteration the sampler returns the very first clock reading with no delay
and that reading is rendered: the trace of `main` up to the end of the first iteration
is startup, configuration, one clock read and the six digit writes
`Write 6 .. Write 1` carrying the BCD nibbles of that reading (its decimal digits when
the reading is a valid time); after every iteration `uOldSeconds` equals the seconds
field of the sample just rendered (the 8-bit store truncates nothing). -/
theorem first_reading_rendered (argc n : Int) (tm : Tm) (rest : List Tm)
    (hsec : 0 ≤ tm.tm_sec ∧ tm.tm_sec ≤ 60) :
    tm.tm_sec ≠ ((0xFF : Nat) : Int) ∧
      sampler 0xFF (tm :: rest) = ([Event.time_read], some (tm, rest)) ∧
      (main argc n true (tm :: rest)).1 =
        Event.gettimeofday :: startup (iBrightness argc n) ++
          (SetupBasics (iBrightness argc n) ++ [Event.time_read] ++ render (digit tm)) ++
          mainLoop (iBrightness argc n) (rest.length + 1) tm.tm_sec.toNat rest ∧
      (∀ (b : Int) (old : Nat) (clock : List Tm) (tm2 : Tm) (rest2 : List Tm),
        (sampler old clock).2 = some (tm2, rest2) → 0 ≤ tm2.tm_sec → tm2.tm_sec ≤ 60 →
        ∃ newOld : Nat, (loopBody b old clock).2 = some (newOld, rest2) ∧
          (newOld : Int) = tm2.tm_sec) ∧
      render (digit tm) =
        Write 6 (int_to_bcd tm.tm_hour / 16) ++ (Write 5 (int_to_bcd tm.tm_hour % 16) ++
          (Write 4 (int_to_bcd tm.tm_min / 16) ++ (Write 3 (int_to_bcd tm.tm_min % 16) ++
            (Write 2 (int_to_bcd tm.tm_sec / 16) ++ Write 1 (int_to_bcd tm.tm_sec % 16))))) ∧
      transactions (Event.gettimeofday :: startup (iBrightness argc n) ++
          (SetupBasics (iBrightness argc n) ++ [Event.time_read] ++ render (digit tm))) =
        [(0x0B, 0x05), (0x09, 0x00), (0x0C, 0x01), (0x0F, 0x00),
          (0x0A, (iBrightness argc n).toNat),
          (1, 0), (2, 0), (3, 0), (4, 0), (5, 0), (6, 0), (7, 0), (8, 0),
          (0x0B, 0x05), (0x09, 0x00), (0x0C, 0x01), (0x0F, 0x00),
          (0x0A, (iBrightness argc n).toNat),
          (6, int_to_bcd tm.tm_hour / 16), (5, int_to_bcd tm.tm_hour % 16),
          (4, int_to_bcd tm.tm_min / 16), (3, int_to_bcd tm.tm_min % 16),
          (2, int_to_bcd tm.tm_sec / 16), (1, int_to_bcd tm.tm_sec % 16)] ∧
      (∀ h m s : Nat, tm = ⟨s, m, h⟩ → h ≤ 23 → m ≤ 59 →
        transactions (Event.gettimeofday :: startup (iBrightness argc n) ++
            (SetupBasics (iBrightness argc n) ++ [Event.time_read] ++ render (digit tm))) =
          [(0x0B, 0x05), (0x09, 0x00), (0x0C, 0x01), (0x0F, 0x00),
            (0x0A, (iBrightness argc n).toNat),
            (1, 0), (2, 0), (3, 0), (4, 0), (5, 0), (6, 0), (7, 0), (8, 0),
            (0x0B, 0x05), (0x09, 0x00), (0x0C, 0x01), (0x0F, 0x00),
            (0x0A, (iBrightness argc n).toNat),
            (6, h / 10), (5, h % 10), (4, m / 10), (3, m % 10), (2, s / 10), (1, s % 10)]) := by
  have hne : tm.tm_sec ≠ ((0xFF : Nat) : Int) := by
    have h255 : ((0xFF : Nat) : Int) = 255 := rfl
    omega
  have h255 : ¬ tm.tm_sec = 255 := by omega
  have hs : sampler 0xFF (tm :: rest) = ([Event.time_read], some (tm, rest)) := by
    simp [sampler, h255]
  have hu : toU8 tm.tm_sec = tm.tm_sec.toNat := by
    unfold toU8
    omega
  have hb := (iBrightness_toU8 argc n).1
  have hsb := int_to_bcd_lt tm.tm_sec
  have hmb := int_to_bcd_lt tm.tm_min
  have hhb := int_to_bcd_lt tm.tm_hour
  refine ⟨hne, hs, ?_, ?_, ?_, ?_, ?_⟩
  · have hl := loopBody_some (iBrightness argc n) 0xFF (tm :: rest) tm rest (by rw [hs])
    simp [main, mainLoop, hl, hs, hu]
  · intro b old clock tm2 rest2 h h0 h60
    refine ⟨toU8 tm2.tm_sec, ?_, ?_⟩
    · rw [loopBody_some b old clock tm2 rest2 h]
    · unfold toU8
      omega
  · rw [digit_nibbles]
    exact render_eq _ _ _ _ _ _ (by omega) (by omega) (by omega) (by omega) (by omega) (by omega)
  · rw [digit_nibbles, transactions_through_first_render _ _ _ _ _ _ _ (by omega) (by omega)
      (by omega) (by omega) (by omega) (by omega), hb]
  · intro h m s htm hh hm
    have hs60 : s ≤ 60 := by
      have h1 := hsec.2
      rw [htm] at h1
      simp only at h1
      omega
    rw [htm, digit_eq h m s (by omega) (by omega) (by omega),
      transactions_through_first_render _ _ _ _ _ _ _ (by omega) (by omega) (by omega)
        (by omega) (by omega) (by omega), hb]

theorem first_reading_rendered_witness :
    transactions (Event.gettimeofday :: startup (iBrightness 1 0) ++
        (SetupBasics (iBrightness 1 0) ++ [Event.time_read] ++ render (digit ⟨60, 59, 23⟩))) =
      [(0x0B, 0x05), (0x09, 0x00), (0x0C, 0x01), (0x0F, 0x00), (0x0A, 8),
        (1, 0), (2, 0), (3, 0), (4, 0), (5, 0), (6, 0), (7, 0), (8, 0),
        (0x0B, 0x05), (0x09, 0x00), (0x0C, 0x01), (0x0F, 0x00), (0x0A, 8),
        (6, 2), (5, 3), (4, 5), (3, 9), (2, 6), (1, 0)] :=
  (first_reading_rendered 1 0 ⟨60, 59, 23⟩ [⟨0, 0, 0⟩] (by decide)).2.2.2.2.2.2 23 59 60 rfl
    (by decide) (by decide)

end BcdClock
